import Mathlib

/-!
Shallow embedding of the algorithm execution engine of the dsa-visualizer
repository, and proofs about its specification claims.

Embedded source files:
- `src/lib/canvas/algorithms/sorting.ts` (the nine sorting step sequences),
- `src/lib/canvas/AlgorithmEngine.ts` (callbacks / primitives, `execute`,
  `stop`, `step`, `setSpeed`),
- `src/lib/canvas/PerformanceMonitor.ts` (counter recording),
- `src/lib/canvas/visualization-theme.ts` (`getDelayForSpeed`),
- `src/lib/canvas/DataGenerator.ts` (`validateArray`),
- `src/lib/canvas/CanvasCommandExecutor.ts` (`executeRun`).

Modelling conventions:
- JavaScript numbers that flow through the engine are modelled as `Int`
  (the algorithms and claims only involve integer arithmetic on them);
  wall-clock time (delays, elapsed time) is not modelled — `sleep` calls
  are pure no-ops in the model, and the speed-to-delay table is modelled
  as the pure function `getDelayForSpeed`.
- The run of one algorithm is single-threaded cooperative code; it is
  modelled as a state-threading computation `EM α := St → Except GErr α × St`
  in which a raised exception (`GErr.thrown`) carries the state at the
  point of the throw (mutations made before the throw persist, as they do
  on the JavaScript `this.state`), and a bare `return` statement inside an
  async generator is the distinguished outcome `GErr.ret`, converted to a
  normal completion at that generator function's boundary (`genBody`).
- The external `stop()` call is modelled by an oracle `stopAt : Option Nat`
  carried in the state: when the number of primitive entries so far
  (`opCount`) reaches the oracle, the `isStopped` flag is set, exactly as
  a `stop()` arriving at that `await` boundary would do.
- The visualization sink is modelled only insofar as the claims need it:
  the indices passed to the `markSorted` primitive are accumulated in
  `sortedMarks`, and the step descriptors the generators `yield` are
  accumulated in `steps`.  `highlight`'s visual effect is not otherwise
  tracked.  Instrumentation fields (`setCalls`, `stepWaits`, `opCount`)
  are ghost counters read by no modelled code.
-/

/-- Animation mode of a run (`'step' | 'continuous'`). -/
inductive Mode
  | step
  | continuous
deriving DecidableEq, Repr

/-- Outcome of generator code other than normal completion: a thrown
exception (with its message) or a bare `return` from the generator body. -/
inductive GErr
  | thrown (msg : String)
  | ret
deriving DecidableEq, Repr

/-- Step descriptor (`VisualizationStep`) yielded by the sorting sequences. -/
inductive StepD
  | compareS (i j : Nat)
  | swapS (i j : Nat)
  | setS (i : Nat) (v : Int)
  | pivotS (i : Nat)
  | highlightS (idxs : List Nat)
  | completeS
deriving DecidableEq, Repr

/-- The engine's mutable state (`AlgorithmState`) together with the
performance monitor's metrics and the ghost/model fields described in the
header comment. -/
structure St where
  array : List Int
  comparisons : Nat
  swaps : Nat
  accesses : Nat
  currentStep : Nat
  isRunning : Bool
  isPaused : Bool
  isStopped : Bool
  monComparisons : Nat
  monSwaps : Nat
  monAccesses : Nat
  sortedMarks : List Nat
  steps : List StepD
  setCalls : Nat
  stepWaits : Nat
  opCount : Nat
  stopAt : Option Nat
  mode : Mode
  speed : Int
deriving DecidableEq, Repr

/-- The execution monad: state threading with an exceptional outcome that
still carries the state reached at the point of the throw. -/
def EM (α : Type) : Type := St → Except GErr α × St

/-- Monadic bind: an exceptional outcome short-circuits, keeping its state. -/
def EM.bind {α β : Type} (m : EM α) (k : α → EM β) : EM β := fun st =>
  match m st with
  | (Except.ok a, st1) => k a st1
  | (Except.error e, st1) => (Except.error e, st1)

instance : Monad EM where
  pure a := fun st => (Except.ok a, st)
  bind := EM.bind

theorem EM.bind_def {α β : Type} (m : EM α) (k : α → EM β) :
    m >>= k = EM.bind m k := rfl

theorem EM.pure_apply {α : Type} (a : α) (st : St) :
    (pure a : EM α) st = (Except.ok a, st) := rfl

/-- Raise an outcome (a thrown exception or a generator `return`). -/
def throwM {α : Type} (e : GErr) : EM α := fun st => (Except.error e, st)

/-- A bare `return` statement inside an async generator body. -/
def genRet {α : Type} : EM α := throwM GErr.ret

/-- Boundary of one async generator function: a `return` outcome raised in
the body is a normal completion of that generator; thrown exceptions
propagate to the caller. -/
def genBody (m : EM Unit) : EM Unit := fun st =>
  match m st with
  | (Except.error GErr.ret, st1) => (Except.ok (), st1)
  | r => r

/-- Read the shared working array (`this.state.array`, which is also the
`arr` parameter the generator received — the same object). -/
def readArr : EM (List Int) := fun st => (Except.ok st.array, st)

/-- `callbacks.shouldStop()` — a synchronous read of the stopped flag. -/
def shouldStopQ : EM Bool := fun st => (Except.ok st.isStopped, st)

/-- A `yield` of one step descriptor by the generator. -/
def yieldD (d : StepD) : EM Unit := fun st =>
  (Except.ok (), { st with steps := st.steps ++ [d] })

/-- JavaScript array read `a[i]` (always in range in the embedded code). -/
def jsGet (l : List Int) (i : Nat) : Int := l.getD i 0

/-- JavaScript destructuring exchange `[a[i], a[j]] = [a[j], a[i]]`:
both positions are read first, then both are written. -/
def jsSwap (l : List Int) (i j : Nat) : List Int :=
  (l.set i (jsGet l j)).set j (jsGet l i)

/-- The sequence's own in-generator exchange on the shared array. -/
def genSwap (i j : Nat) : EM Unit := fun st =>
  (Except.ok (), { st with array := jsSwap st.array i j })

/-- A direct in-generator write `arr[i] = v` on the shared array. -/
def genWrite (i : Nat) (v : Int) : EM Unit := fun st =>
  (Except.ok (), { st with array := st.array.set i v })

/-- Oracle for the external `stop()` call: entering a primitive crosses an
`await` boundary at which a pending `stop()` is observed.  `opCount` counts
primitive entries; when it reaches the oracle, `isStopped` is set. -/
def pollStopSt (st : St) : St :=
  let fired :=
    match st.stopAt with
    | some k => decide (k ≤ st.opCount)
    | none => false
  { st with isStopped := st.isStopped || fired, opCount := st.opCount + 1 }

/-- The `compare(i, j)` primitive: throws if stopped; records a comparison
(monitor: `comparisons += 1`, `memoryAccesses += 2`; engine state:
`comparisons++`, `currentStep++`); sleeps for the speed delay; in step mode
additionally suspends awaiting an external `step()` signal (counted by the
ghost field `stepWaits`); returns whether element `i` > element `j`. -/
def compareCb (i j : Nat) : EM Bool := fun st =>
  let st1 := pollStopSt st
  if st1.isStopped then (Except.error (GErr.thrown "Algorithm stopped"), st1)
  else
    let st2 := { st1 with
      monComparisons := st1.monComparisons + 1
      monAccesses := st1.monAccesses + 2
      comparisons := st1.comparisons + 1
      currentStep := st1.currentStep + 1 }
    let st3 := { st2 with
      stepWaits := if st2.mode = Mode.step then st2.stepWaits + 1 else st2.stepWaits }
    (Except.ok (decide (jsGet st3.array i > jsGet st3.array j)), st3)

/-- The `swap(i, j)` primitive: throws if stopped; records a swap (monitor:
`swaps += 1`, `memoryAccesses += 4`; engine state: `swaps++`,
`currentStep++`); exchanges the two elements of the shared state array in
place; sleeps for the speed delay. -/
def swapCb (i j : Nat) : EM Unit := fun st =>
  let st1 := pollStopSt st
  if st1.isStopped then (Except.error (GErr.thrown "Algorithm stopped"), st1)
  else
    (Except.ok (), { st1 with
      monSwaps := st1.monSwaps + 1
      monAccesses := st1.monAccesses + 4
      swaps := st1.swaps + 1
      currentStep := st1.currentStep + 1
      array := jsSwap st1.array i j })

/-- The `set(i, value)` primitive: throws if stopped; records two memory
accesses on both the monitor and the engine state; overwrites one element
of the shared array; sleeps for half the speed delay.  The ghost counter
`setCalls` counts successful `set` calls. -/
def setCb (i : Nat) (v : Int) : EM Unit := fun st =>
  let st1 := pollStopSt st
  if st1.isStopped then (Except.error (GErr.thrown "Algorithm stopped"), st1)
  else
    (Except.ok (), { st1 with
      monAccesses := st1.monAccesses + 2
      accesses := st1.accesses + 2
      array := st1.array.set i v
      setCalls := st1.setCalls + 1 })

/-- The `highlight(indices, state)` primitive: returns (without throwing)
if stopped; otherwise only drives the visualization sink — no counter and
no array changes. -/
def highlightCb (_idxs : List Nat) (_tag : String) : EM Unit := fun st =>
  let st1 := pollStopSt st
  (Except.ok (), st1)

/-- The `markSorted(indices)` primitive: returns (without throwing) if
stopped; otherwise marks the given indices sorted in the visualization
(accumulated in `sortedMarks`) and sleeps for a quarter of the delay. -/
def markSortedCb (idxs : List Nat) : EM Unit := fun st =>
  let st1 := pollStopSt st
  if st1.isStopped then (Except.ok (), st1)
  else (Except.ok (), { st1 with sortedMarks := st1.sortedMarks ++ idxs })

/-! ## The nine sorting step sequences (`algorithms/sorting.ts`)

Each JavaScript `for`/`while` loop is embedded as a recursive function
whose extra `Nat` argument counts the remaining iterations of the loop
(or, for the recursive divide-and-conquer helpers, bounds the recursion
depth); the loop's own induction variables are threaded explicitly.  Each
separate `async function*` is wrapped in `genBody` so that its `return`
statements complete that generator only. -/

/-- Inner loop of `bubbleSort`: `for (j = 0; j < n - i - 1; j++)`, with
`rem` the remaining iteration count.  Returns the `swapped` flag. -/
def bubbleInner : Nat → Nat → Bool → EM Bool
  | _, 0, swapped => pure swapped
  | j, rem + 1, swapped => do
      let stop ← shouldStopQ
      if stop then genRet else
      let shouldSwap ← compareCb j (j + 1)
      yieldD (StepD.compareS j (j + 1))
      if shouldSwap then do
        swapCb j (j + 1)
        genSwap j (j + 1)
        yieldD (StepD.swapS j (j + 1))
        bubbleInner (j + 1) rem true
      else
        bubbleInner (j + 1) rem swapped

/-- `for (k = 0; k < rem; k++) markSorted([first + k])` — used for the
early-termination marking in bubble sort and the mark-all loops at the end
of merge, quick, radix and shell sort. -/
def markRange : Nat → Nat → EM Unit
  | _, 0 => pure ()
  | k, rem + 1 => do
      markSortedCb [k]
      markRange (k + 1) rem

/-- Outer loop of `bubbleSort`: `for (i = 0; i < n - 1; i++)` with the
zero-swap early termination (`break`). -/
def bubbleOuter (n : Nat) : Nat → Nat → EM Unit
  | _, 0 => pure ()
  | i, rem + 1 => do
      let swapped ← bubbleInner 0 (n - i - 1) false
      markSortedCb [n - i - 1]
      if swapped then bubbleOuter n (i + 1) rem
      else markRange 0 (n - i - 1)

/-- `bubbleSort(arr, callbacks)`. -/
def bubbleM : EM Unit := genBody (do
  let arr ← readArr
  let n := arr.length
  bubbleOuter n 0 (n - 1)
  markSortedCb [0]
  yieldD StepD.completeS)

/-- Inner loop of `selectionSort`: `for (j = i + 1; j < n; j++)`, tracking
the running minimum index.  Returns the final `minIdx`. -/
def selInner : Nat → Nat → Nat → EM Nat
  | _, 0, minIdx => pure minIdx
  | j, rem + 1, minIdx => do
      let stop ← shouldStopQ
      if stop then genRet else
      let isGreater ← compareCb minIdx j
      yieldD (StepD.compareS minIdx j)
      if isGreater then do
        highlightCb [minIdx] "default"
        highlightCb [j] "min"
        selInner (j + 1) rem j
      else
        selInner (j + 1) rem minIdx

/-- Outer loop of `selectionSort`: `for (i = 0; i < n - 1; i++)`. -/
def selOuter (n : Nat) : Nat → Nat → EM Unit
  | _, 0 => pure ()
  | i, rem + 1 => do
      let stop ← shouldStopQ
      if stop then genRet else
      highlightCb [i] "min"
      let minIdx ← selInner (i + 1) (n - (i + 1)) i
      (if minIdx ≠ i then do
          swapCb i minIdx
          genSwap i minIdx
          yieldD (StepD.swapS i minIdx)
        else pure ())
      markSortedCb [i]
      selOuter n (i + 1) rem

/-- `selectionSort(arr, callbacks)`. -/
def selectionM : EM Unit := genBody (do
  let arr ← readArr
  let n := arr.length
  selOuter n 0 (n - 1)
  markSortedCb [n - 1]
  yieldD StepD.completeS)

/-- Inner `while (j >= 0)` loop of `insertionSort`.  The argument is
`j + 1` (so the JavaScript `j = -1` exit is argument `0`); returns the
final `j + 1`, which is where `arr[j + 1] = key` then writes. -/
def insInner (i : Nat) : Nat → EM Nat
  | 0 => pure 0
  | jj + 1 => do
      let stop ← shouldStopQ
      if stop then genRet else
      let shouldMove ← compareCb jj i
      yieldD (StepD.compareS jj i)
      if !shouldMove then pure (jj + 1) else do
        swapCb jj (jj + 1)
        genSwap jj (jj + 1)
        yieldD (StepD.swapS jj (jj + 1))
        insInner i jj

/-- Outer loop of `insertionSort`: `for (i = 1; i < n; i++)`. -/
def insOuter : Nat → Nat → EM Unit
  | _, 0 => pure ()
  | i, rem + 1 => do
      let stop ← shouldStopQ
      if stop then genRet else
      let arr ← readArr
      let key := jsGet arr i
      highlightCb [i] "pivot"
      let jp ← insInner i i
      genWrite jp key
      markSortedCb [i]
      insOuter (i + 1) rem

/-- `insertionSort(arr, callbacks)`. -/
def insertionM : EM Unit := genBody (do
  let arr ← readArr
  let n := arr.length
  markSortedCb [0]
  insOuter 1 (n - 1)
  yieldD StepD.completeS)

/-- Main merge loop of `merge(start, mid, end)`:
`while (i < left.length && j < right.length)`.  `left` and `right` are the
snapshots `arr.slice(start, mid + 1)` and `arr.slice(mid + 1, end + 1)`;
the comparison `left[i] <= right[j]` is a direct read of the snapshots
(the `compare` callback is never invoked), the winner is written through
both the direct `arr[k] = ...` and the `set` callback.  Returns the final
`(i, j, k)`. -/
def mergeLoop (start mid : Nat) (left right : List Int) :
    Nat → Nat → Nat → Nat → EM (Nat × Nat × Nat)
  | i, j, k, 0 => pure (i, j, k)
  | i, j, k, fuel + 1 =>
      if i < left.length ∧ j < right.length then do
        let stop ← shouldStopQ
        if stop then genRet else
        highlightCb [start + i, mid + 1 + j] "comparing"
        yieldD (StepD.compareS (start + i) (mid + 1 + j))
        if jsGet left i ≤ jsGet right j then do
          genWrite k (jsGet left i)
          setCb k (jsGet left i)
          mergeLoop start mid left right (i + 1) j (k + 1) fuel
        else do
          genWrite k (jsGet right j)
          setCb k (jsGet right j)
          mergeLoop start mid left right i (j + 1) (k + 1) fuel
      else pure (i, j, k)

/-- Copy-remainder loop of `merge`: `while (i < src.length) { arr[k] = src[i];
set(k, src[i]); i++; k++ }`.  Returns the final `k`. -/
def mergeCopyLoop (src : List Int) : Nat → Nat → Nat → EM Nat
  | _, k, 0 => pure k
  | i, k, rem + 1 =>
      if i < src.length then do
        let stop ← shouldStopQ
        if stop then genRet else
        genWrite k (jsGet src i)
        setCb k (jsGet src i)
        mergeCopyLoop src (i + 1) (k + 1) rem
      else pure k

/-- `for (idx = first; idx < first + rem; idx++) highlight([idx], 'default')`. -/
def highlightRange : Nat → Nat → EM Unit
  | _, 0 => pure ()
  | idx, rem + 1 => do
      highlightCb [idx] "default"
      highlightRange (idx + 1) rem

/-- The `merge(start, mid, end)` generator of `mergeSort` (`hi` is `end`). -/
def mergeStep (start mid hi : Nat) : EM Unit := genBody (do
  let arr ← readArr
  let left := (arr.drop start).take (mid + 1 - start)
  let right := (arr.drop (mid + 1)).take (hi - mid)
  highlightCb ((List.range (hi - start + 1)).map (fun idx => start + idx)) "comparing"
  let r ← mergeLoop start mid left right 0 0 start (left.length + right.length)
  let k2 ← mergeCopyLoop left r.1 r.2.2 (left.length - r.1)
  let _ ← mergeCopyLoop right r.2.1 k2 (right.length - r.2.1)
  highlightRange start (hi - start + 1))

/-- The recursive `mergeSortHelper(start, end)` generator; the first
argument bounds the recursion depth (each nested call halves the range, so
`n + 1` always suffices for the top-level call). -/
def mergeHelper : Nat → Nat → Nat → EM Unit
  | 0, _, _ => pure ()
  | fuel + 1, start, hi => genBody (do
      let stop ← shouldStopQ
      if start ≥ hi ∨ stop then genRet else
      let mid := (start + hi) / 2
      mergeHelper fuel start mid
      let stop2 ← shouldStopQ
      if stop2 then genRet else
      mergeHelper fuel (mid + 1) hi
      let stop3 ← shouldStopQ
      if stop3 then genRet else
      mergeStep start mid hi)

/-- `mergeSort(arr, callbacks)`. -/
def mergeM : EM Unit := genBody (do
  let arr ← readArr
  let n := arr.length
  mergeHelper (n + 1) 0 (n - 1)
  let stop ← shouldStopQ
  (if stop then pure () else markRange 0 n)
  yieldD StepD.completeS)

/-- Lomuto partition loop of `quickSort`: `for (j = low; j < high; j++)`.
The source's `yield { type: 'compare' }` is emitted, but the decision
`arr[j] < pivot` is a direct read — the `compare` callback is never
invoked.  `i` is a JavaScript number that starts at `low - 1` (possibly
`-1`), hence `Int`.  The body of `if (arr[j] < pivot)` — the conditional
swap and the `i++` — is split out as `quickMaybeSwap`; the loop returns
the final `i`. -/
def quickMaybeSwap (i : Int) (j : Nat) (arrj pivot : Int) : EM Int :=
  if arrj < pivot then do
    (if i + 1 ≠ (j : Int) then do
        swapCb (i + 1).toNat j
        genSwap (i + 1).toNat j
        yieldD (StepD.swapS (i + 1).toNat j)
      else pure ())
    pure (i + 1)
  else pure i

def quickPartitionLoop (high : Nat) (pivot : Int) : Int → Nat → Nat → EM Int
  | i, _, 0 => pure i
  | i, j, rem + 1 => do
      let stop ← shouldStopQ
      if stop then genRet else
      highlightCb [j] "comparing"
      yieldD (StepD.compareS j high)
      let arr ← readArr
      let i2 ← quickMaybeSwap i j (jsGet arr j) pivot
      highlightCb [j] "default"
      quickPartitionLoop high pivot i2 (j + 1) rem

/-- The recursive `quickSortHelper(low, high)` generator (partition inline);
the first argument bounds the recursion depth (each nested call strictly
shrinks the range, so `n + 1` always suffices). -/
def quickHelper : Nat → Nat → Nat → EM Unit
  | 0, _, _ => pure ()
  | fuel + 1, low, high => genBody (do
      let stop ← shouldStopQ
      if low ≥ high ∨ stop then genRet else
      let arr ← readArr
      let pivot := jsGet arr high
      highlightCb [high] "pivot"
      yieldD (StepD.pivotS high)
      let i ← quickPartitionLoop high pivot ((low : Int) - 1) low (high - low)
      let pivotIdx := (i + 1).toNat
      (if pivotIdx ≠ high then do
          swapCb pivotIdx high
          genSwap pivotIdx high
          yieldD (StepD.swapS pivotIdx high)
        else pure ())
      highlightCb [high] "default"
      markSortedCb [pivotIdx]
      quickHelper fuel low (pivotIdx - 1)
      quickHelper fuel (pivotIdx + 1) high)

/-- `quickSort(arr, callbacks)`. -/
def quickM : EM Unit := genBody (do
  let arr ← readArr
  let n := arr.length
  quickHelper (n + 1) 0 (n - 1)
  let stop ← shouldStopQ
  (if stop then pure () else markRange 0 n)
  yieldD StepD.completeS)

/-- The recursive `heapify(heapSize, rootIdx)` generator of `heapSort`.
The `compare` callback is invoked for each existing child but its result
is ignored: the decisions are the direct reads `arr[child] > arr[largest]`.
Each `if (child < heapSize)` block is split out as `heapifyCheckChild`.
The first argument bounds the recursion depth (the root index strictly
grows and stays below `heapSize`, so `n + 1` always suffices). -/
def heapifyCheckChild (largest child heapSize : Nat) : EM Nat :=
  if child < heapSize then do
    let stop ← shouldStopQ
    if stop then genRet else
    let _ ← compareCb largest child
    yieldD (StepD.compareS largest child)
    let arr ← readArr
    if jsGet arr child > jsGet arr largest then pure child else pure largest
  else pure largest

def heapify : Nat → Nat → Nat → EM Unit
  | 0, _, _ => pure ()
  | fuel + 1, heapSize, rootIdx => genBody (do
      let largest1 ← heapifyCheckChild rootIdx (2 * rootIdx + 1) heapSize
      let largest2 ← heapifyCheckChild largest1 (2 * rootIdx + 2) heapSize
      if largest2 ≠ rootIdx then do
        swapCb rootIdx largest2
        genSwap rootIdx largest2
        yieldD (StepD.swapS rootIdx largest2)
        heapify fuel heapSize largest2
      else pure ())

/-- Build-max-heap loop of `heapSort`:
`for (i = floor(n / 2) - 1; i >= 0; i--)`; the argument is `i + 1`. -/
def heapBuildLoop (n : Nat) : Nat → EM Unit
  | 0 => pure ()
  | rem + 1 => do
      let stop ← shouldStopQ
      if stop then genRet else
      heapify (n + 1) n rem
      heapBuildLoop n rem

/-- Extraction loop of `heapSort`: `for (i = n - 1; i > 0; i--)`;
the argument is `i` (down to `1`). -/
def heapExtractLoop (n : Nat) : Nat → EM Unit
  | 0 => pure ()
  | rem + 1 => do
      let stop ← shouldStopQ
      if stop then genRet else
      swapCb 0 (rem + 1)
      genSwap 0 (rem + 1)
      yieldD (StepD.swapS 0 (rem + 1))
      markSortedCb [rem + 1]
      heapify (n + 1) (rem + 1) 0
      heapExtractLoop n rem

/-- `heapSort(arr, callbacks)`. -/
def heapM : EM Unit := genBody (do
  let arr ← readArr
  let n := arr.length
  heapBuildLoop n (n / 2)
  heapExtractLoop n (n - 1)
  markSortedCb [0]
  yieldD StepD.completeS)

/-- `Math.min(...arr)` (used only on non-empty arrays). -/
def intMin : List Int → Int
  | [] => 0
  | [x] => x
  | x :: y :: xs => min x (intMin (y :: xs))

/-- `Math.max(...arr)` (used only on non-empty arrays). -/
def intMax : List Int → Int
  | [] => 0
  | [x] => x
  | x :: y :: xs => max x (intMax (y :: xs))

/-- Cumulative-count loop `for (i = first; i < first + rem; i++)
c[i] += c[i - 1]` of counting sort and radix sort (a pure computation,
no callbacks). -/
def cumLoop : Nat → Nat → List Nat → List Nat
  | _, 0, c => c
  | i, rem + 1, c => cumLoop (i + 1) rem (c.set i (c.getD i 0 + c.getD (i - 1) 0))

/-- Count-occurrences loop of `countingSort`:
`count[arr[i] - min]++` with a highlight flash and a `highlight` yield. -/
def countOccurLoop (minV : Int) : Nat → Nat → List Nat → EM (List Nat)
  | _, 0, count => pure count
  | i, rem + 1, count => do
      let stop ← shouldStopQ
      if stop then genRet else
      let arr ← readArr
      let idx := (jsGet arr i - minV).toNat
      let count2 := count.set idx (count.getD idx 0 + 1)
      highlightCb [i] "comparing"
      yieldD (StepD.highlightS [i])
      highlightCb [i] "default"
      countOccurLoop minV (i + 1) rem count2

/-- Build-output loop of `countingSort`: `for (i = arr.length - 1; i >= 0;
i--)`; the argument is `i + 1`.  Returns the final `(count, output)`. -/
def countBuildLoop (minV : Int) : Nat → List Nat → List Int → EM (List Nat × List Int)
  | 0, count, output => pure (count, output)
  | rem + 1, count, output => do
      let stop ← shouldStopQ
      if stop then genRet else
      let arr ← readArr
      let value := jsGet arr rem
      let idx := (value - minV).toNat
      let pos := count.getD idx 0 - 1
      let output2 := output.set pos value
      let count2 := count.set idx (count.getD idx 0 - 1)
      highlightCb [rem] "comparing"
      yieldD (StepD.highlightS [rem])
      countBuildLoop minV rem count2 output2

/-- Copy-back loop of `countingSort`: `arr[i] = output[i]`, `set`,
`markSorted([i])`, `yield set`. -/
def countCopyLoop (output : List Int) : Nat → Nat → EM Unit
  | _, 0 => pure ()
  | i, rem + 1 => do
      let stop ← shouldStopQ
      if stop then genRet else
      genWrite i (jsGet output i)
      setCb i (jsGet output i)
      markSortedCb [i]
      yieldD (StepD.setS i (jsGet output i))
      countCopyLoop output (i + 1) rem

/-- `countingSort(arr, callbacks)`. -/
def countingM : EM Unit := genBody (do
  let arr ← readArr
  if arr.length = 0 then genRet else
  let minV := intMin arr
  let maxV := intMax arr
  let range := (maxV - minV + 1).toNat
  let count1 ← countOccurLoop minV 0 arr.length (List.replicate range 0)
  let count2 := cumLoop 1 (range - 1) count1
  let r ← countBuildLoop minV arr.length count2 (List.replicate arr.length 0)
  countCopyLoop r.2 0 arr.length
  yieldD StepD.completeS)

/-- Digit of `arr[i]` for the current exponent in `radixSort`:
`Math.floor(arr[i] / exp) % 10` (the embedded values are non-negative, for
which floor division and `emod` agree with the JavaScript operators). -/
def radixDigit (v exp : Int) : Nat := ((v.fdiv exp).emod 10).toNat

/-- Count-digit-occurrences loop of `countingSortByDigit`. -/
def radixCountLoop (exp : Int) : Nat → Nat → List Nat → EM (List Nat)
  | _, 0, count => pure count
  | i, rem + 1, count => do
      let stop ← shouldStopQ
      if stop then genRet else
      let arr ← readArr
      let digit := radixDigit (jsGet arr i) exp
      let count2 := count.set digit (count.getD digit 0 + 1)
      highlightCb [i] "comparing"
      yieldD (StepD.highlightS [i])
      highlightCb [i] "default"
      radixCountLoop exp (i + 1) rem count2

/-- Build-output loop of `countingSortByDigit`:
`for (i = n - 1; i >= 0; i--)` with no highlight and no yield. -/
def radixBuildLoop (exp : Int) : Nat → List Nat → List Int → EM (List Nat × List Int)
  | 0, count, output => pure (count, output)
  | rem + 1, count, output => do
      let stop ← shouldStopQ
      if stop then genRet else
      let arr ← readArr
      let digit := radixDigit (jsGet arr rem) exp
      let pos := count.getD digit 0 - 1
      let output2 := output.set pos (jsGet arr rem)
      let count2 := count.set digit (count.getD digit 0 - 1)
      radixBuildLoop exp rem count2 output2

/-- Copy-back loop of `countingSortByDigit`: `arr[i] = output[i]`, `set`,
`yield set` (no `markSorted` here). -/
def radixCopyLoop (output : List Int) : Nat → Nat → EM Unit
  | _, 0 => pure ()
  | i, rem + 1 => do
      let stop ← shouldStopQ
      if stop then genRet else
      genWrite i (jsGet output i)
      setCb i (jsGet output i)
      yieldD (StepD.setS i (jsGet output i))
      radixCopyLoop output (i + 1) rem

/-- The `countingSortByDigit(arr, exp, callbacks)` generator. -/
def countingSortByDigitM (exp : Int) : EM Unit := genBody (do
  let arr ← readArr
  let n := arr.length
  let count1 ← radixCountLoop exp 0 n (List.replicate 10 0)
  let count2 := cumLoop 1 9 count1
  let r ← radixBuildLoop exp n count2 (List.replicate n 0)
  radixCopyLoop r.2 0 n)

/-- `while (Math.floor(max / exp) > 0)` loop of `radixSort`; the first
argument bounds the iteration count (`exp` is multiplied by 10 each time,
so `max.toNat + 1` always suffices). -/
def radixWhile (maxV : Int) : Nat → Int → EM Unit
  | 0, _ => pure ()
  | fuel + 1, exp =>
      if maxV.fdiv exp > 0 then do
        let stop ← shouldStopQ
        if stop then genRet else
        countingSortByDigitM exp
        radixWhile maxV fuel (exp * 10)
      else pure ()

/-- `radixSort(arr, callbacks)`. -/
def radixM : EM Unit := genBody (do
  let arr ← readArr
  if arr.length = 0 then genRet else
  let maxV := intMax arr
  radixWhile maxV (maxV.toNat + 1) 1
  markRange 0 arr.length
  yieldD StepD.completeS)

/-- Gapped-insertion inner loop of `shellSort`: `while (j >= gap)`; the
last argument bounds the iteration count (`j` starts at `i` and shrinks by
`gap ≥ 1` each time, so `i + 1` suffices).  Returns the final `j`. -/
def shellInnerLoop (gap : Nat) : Nat → Nat → EM Nat
  | j, 0 => pure j
  | j, fuel + 1 =>
      if j ≥ gap then do
        let stop ← shouldStopQ
        if stop then genRet else
        let shouldSwap ← compareCb (j - gap) j
        yieldD (StepD.compareS (j - gap) j)
        if !shouldSwap then pure j else do
          swapCb (j - gap) j
          genSwap (j - gap) j
          yieldD (StepD.swapS (j - gap) j)
          shellInnerLoop gap (j - gap) fuel
      else pure j

/-- Middle loop of `shellSort`: `for (i = gap; i < n; i++)`. -/
def shellMidLoop (n gap : Nat) : Nat → Nat → EM Unit
  | _, 0 => pure ()
  | i, rem + 1 => do
      let stop ← shouldStopQ
      if stop then genRet else
      let arr ← readArr
      let temp := jsGet arr i
      highlightCb [i] "pivot"
      let j ← shellInnerLoop gap i (i + 1)
      genWrite j temp
      highlightCb [i] "default"
      shellMidLoop n gap (i + 1) rem

/-- Gap loop of `shellSort`: `for (gap = floor(n / 2); gap > 0;
gap = floor(gap / 2))`; the last argument bounds the iteration count
(halving, so `n + 1` suffices). -/
def shellGapLoop (n : Nat) : Nat → Nat → EM Unit
  | _, 0 => pure ()
  | gap, fuel + 1 =>
      if gap > 0 then do
        shellMidLoop n gap gap (n - gap)
        shellGapLoop n (gap / 2) fuel
      else pure ()

/-- `shellSort(arr, callbacks)`. -/
def shellM : EM Unit := genBody (do
  let arr ← readArr
  let n := arr.length
  shellGapLoop n (n / 2) (n + 1)
  markRange 0 n
  yieldD StepD.completeS)

/-- The `sortingAlgorithms` registry: the nine registered sorting
sequences, keyed by their registered names. -/
def registryM : List (String × EM Unit) :=
  [("bubble-sort", bubbleM),
   ("selection-sort", selectionM),
   ("insertion-sort", insertionM),
   ("merge-sort", mergeM),
   ("quick-sort", quickM),
   ("heap-sort", heapM),
   ("counting-sort", countingM),
   ("radix-sort", radixM),
   ("shell-sort", shellM)]

/-- `getSortingAlgorithm(name)` (`null` becomes `none`). -/
def getSortingAlgorithmM (name : String) : Option (EM Unit) :=
  (registryM.find? (fun p => p.1 == name)).map (fun p => p.2)

/-! ## Engine, monitor and executor level (`AlgorithmEngine.ts`,
`visualization-theme.ts`, `DataGenerator.ts`, `CanvasCommandExecutor.ts`) -/

/-- The `animationSpeed` record of `visualization-theme.ts` as a partial
map (record lookup of a missing key is `undefined`, i.e. `none`). -/
def animationSpeed (k : Int) : Option Nat :=
  if k = 1 then some 1000
  else if k = 2 then some 800
  else if k = 3 then some 600
  else if k = 4 then some 400
  else if k = 5 then some 250
  else if k = 6 then some 150
  else if k = 7 then some 100
  else if k = 8 then some 50
  else if k = 9 then some 25
  else if k = 10 then some 10
  else none

/-- `getDelayForSpeed(speed)`:
`animationSpeed[Math.max(1, Math.min(10, speed))] ?? animationSpeed[5]`. -/
def getDelayForSpeed (speed : Int) : Nat :=
  (animationSpeed (max 1 (min 10 speed))).getD 250

/-- `AlgorithmEngine.setSpeed(speed)`: clamps into `[1, 10]`. -/
def setSpeedClamp (speed : Int) : Int := max 1 (min 10 speed)

/-- `ExecutionResult` (the source's optional `error` field is an
`Option String`; `totalTime` is wall-clock and is not modelled). -/
structure ExecutionResult where
  success : Bool
  finalArray : List Int
  totalComparisons : Nat
  totalSwaps : Nat
  totalAccesses : Nat
  algorithmName : String
  error : Option String
deriving DecidableEq, Repr

/-- The fresh engine state made at the top of `execute`: everything reset,
the working array a copy of the input, `isRunning` set, plus the fresh
performance-monitor metrics from `performanceMonitor.start()` and the
model's stop oracle. -/
def freshSt (inputArray : List Int) (speed : Int) (mode : Mode)
    (stopAt : Option Nat) : St :=
  { array := inputArray
    comparisons := 0
    swaps := 0
    accesses := 0
    currentStep := 0
    isRunning := true
    isPaused := false
    isStopped := false
    monComparisons := 0
    monSwaps := 0
    monAccesses := 0
    sortedMarks := []
    steps := []
    setCalls := 0
    stepWaits := 0
    opCount := 0
    stopAt := stopAt
    mode := mode
    speed := speed }

/-- `AlgorithmEngine.execute(algorithmName, algorithm, config)`: resets the
state, starts the monitor, drives the generator inside `try/catch` (any
exception — the cancellation signal or an unexpected one — is swallowed),
then builds the `ExecutionResult`: `success` is `!isStopped`, `finalArray`
a snapshot of the state array, the totals from the engine counters and the
monitor, and no `error` field is ever set.  Returns the result together
with the final engine state. -/
def executeModel (algorithmName : String) (alg : EM Unit) (inputArray : List Int)
    (speed : Int) (mode : Mode) (stopAt : Option Nat) : ExecutionResult × St :=
  let st0 := freshSt inputArray speed mode stopAt
  let r := alg st0
  let st1 := r.2
  let result : ExecutionResult :=
    { success := !st1.isStopped
      finalArray := st1.array
      totalComparisons := st1.comparisons
      totalSwaps := st1.swaps
      totalAccesses := st1.monAccesses
      algorithmName := algorithmName
      error := none }
  (result, { st1 with isRunning := false })

/-- `AlgorithmEngine.stop()`: sets `isStopped`, clears `isRunning` and
`isPaused` (and resolves a pending step, which is not separately
modelled). -/
def stopSt (st : St) : St :=
  { st with isStopped := true, isRunning := false, isPaused := false }

/-- A JavaScript value reaching `validateArray` through the `number[]`
interface: an actual number, `NaN`, or a non-number. -/
inductive JVal
  | num (x : Int)
  | nan
  | nonNumber
deriving DecidableEq, Repr

/-- `validateArray(arr, maxSize)` of `DataGenerator.ts`: `none` means
valid, `some e` carries the error message. -/
def validateArray (arr : List JVal) (maxSize : Nat) : Option String :=
  if arr.length = 0 then some "Array cannot be empty"
  else if arr.length > maxSize then
    some ("Array size cannot exceed " ++ toString maxSize)
  else
    match arr.findIdx? (fun v => match v with | JVal.num _ => false | _ => true) with
    | some i => some ("Invalid value at index " ++ toString i)
    | none => none

/-- The numeric value of a validated `JVal` (validation guarantees the
`num` case). -/
def jvalToInt : JVal → Int
  | JVal.num x => x
  | JVal.nan => 0
  | JVal.nonNumber => 0

/-- The `RunOptions` of `CanvasCommandExecutor.executeRun`. -/
structure RunOptions where
  speed : Option Int
  mode : Option Mode
  inputSize : Option Nat
  inputArray : Option (List JVal)

/-- The executor-level view of the engine: its mutable state plus whether
the performance-monitor timer has been started. -/
structure EngineBox where
  st : St
  monitorStarted : Bool
deriving DecidableEq, Repr

/-- `CanvasCommandExecutor.executeRun(algorithmName, options)` on an
initialized executor.  Order as in the source: unknown algorithm name
returns an error `ExecutionResult`; a still-running previous run is
stopped; a caller-supplied input array is validated and a validation
failure is thrown (`Except.error`); otherwise the input is generated
(`gen` stands for the random `generateForVisualization`), the speed and
mode are set, and the engine executes.  The model's stop oracle for the
new run is passed through as `stopAt`. -/
def executeRunModel (box : EngineBox) (algorithmName : String) (opts : RunOptions)
    (gen : Nat → List Int) (stopAt : Option Nat) :
    Except String ExecutionResult × EngineBox :=
  match getSortingAlgorithmM algorithmName with
  | none =>
      (Except.ok
        { success := false, finalArray := [], totalComparisons := 0, totalSwaps := 0,
          totalAccesses := 0, algorithmName := algorithmName,
          error := some ("Unknown algorithm: " ++ algorithmName) }, box)
  | some alg =>
      let box1 := if box.st.isRunning then { box with st := stopSt box.st } else box
      let inputArrayE : Except String (List Int) :=
        match opts.inputArray with
        | some arr =>
            match validateArray arr 500 with
            | some e => Except.error e
            | none => Except.ok (arr.map jvalToInt)
        | none =>
            let size :=
              match opts.inputSize with
              | some s => if s = 0 then 50 else s
              | none => 50
            Except.ok (gen size)
      match inputArrayE with
      | Except.error e => (Except.error e, box1)
      | Except.ok input =>
          let speed := opts.speed.getD 5
          let mode := opts.mode.getD Mode.continuous
          let r := executeModel algorithmName alg input speed mode stopAt
          (Except.ok r.1, { st := r.2, monitorStarted := true })

/-! ## Counter invariant (claims about the performance accounting)

`CInvM m st` ties together, for a run in animation mode `m`, the monitor
counters, the engine-state counters, and the ghost instrumentation: it
holds for the fresh state of `execute` and is preserved by every primitive
(hence by every computation built from them), whether or not a stop or a
throw occurs along the way. -/

/-- The counter-accounting invariant for a run in mode `m`. -/
def CInvM (m : Mode) (st : St) : Prop :=
  st.mode = m ∧
  st.monComparisons = st.comparisons ∧
  st.monSwaps = st.swaps ∧
  st.monAccesses = 2 * st.comparisons + 4 * st.swaps + 2 * st.setCalls ∧
  st.accesses = 2 * st.setCalls ∧
  st.stepWaits = (if m = Mode.step then st.comparisons else 0)

/-- Preservation of the counter invariant by a computation. -/
def PresC {α : Type} (mm : EM α) : Prop :=
  ∀ (m : Mode) (st : St), CInvM m st → CInvM m (mm st).2

theorem presC_pure {α : Type} (a : α) : PresC (pure a : EM α) :=
  fun _ _ h => h

theorem presC_throwM {α : Type} (e : GErr) : PresC (throwM e : EM α) :=
  fun _ _ h => h

theorem presC_genRet {α : Type} : PresC (genRet : EM α) :=
  fun _ _ h => h

theorem presC_bind {α β : Type} {mm : EM α} {k : α → EM β}
    (hm : PresC mm) (hk : ∀ a, PresC (k a)) : PresC (mm >>= k) := by
  intro m st h
  rw [EM.bind_def]
  unfold EM.bind
  cases hms : mm st with
  | mk fst snd =>
    have hsnd : CInvM m snd := by
      have := hm m st h
      rw [hms] at this
      exact this
    cases fst with
    | ok a => exact hk a m snd hsnd
    | error e => exact hsnd

theorem presC_ite {α : Type} {c : Prop} [Decidable c] {m1 m2 : EM α}
    (h1 : PresC m1) (h2 : PresC m2) : PresC (if c then m1 else m2) := by
  split
  · exact h1
  · exact h2

theorem presC_genBody {mm : EM Unit} (hm : PresC mm) : PresC (genBody mm) := by
  intro m st h
  unfold genBody
  have := hm m st h
  cases hms : mm st with
  | mk fst snd =>
    rw [hms] at this
    cases fst with
    | ok a => exact this
    | error e => cases e <;> exact this

theorem cInvM_pollStopSt {m : Mode} {st : St} (h : CInvM m st) :
    CInvM m (pollStopSt st) := by
  obtain ⟨h1, h2, h3, h4, h5, h6⟩ := h
  exact ⟨h1, h2, h3, h4, h5, h6⟩

theorem presC_compareCb (i j : Nat) : PresC (compareCb i j) := by
  intro m st h
  have hp := cInvM_pollStopSt h
  obtain ⟨h1, h2, h3, h4, h5, h6⟩ := hp
  unfold compareCb
  dsimp only
  split
  · exact ⟨h1, h2, h3, h4, h5, h6⟩
  · refine ⟨h1, by simp [h2], by simp [h3], by simp [h4]; ring, by simp [h5], ?_⟩
    simp only [h1, h6]
    split <;> simp

theorem presC_swapCb (i j : Nat) : PresC (swapCb i j) := by
  intro m st h
  have hp := cInvM_pollStopSt h
  obtain ⟨h1, h2, h3, h4, h5, h6⟩ := hp
  unfold swapCb
  dsimp only
  split
  · exact ⟨h1, h2, h3, h4, h5, h6⟩
  · refine ⟨h1, by simp [h2], by simp [h3], by simp [h4]; ring, by simp [h5], ?_⟩
    simpa using h6

theorem presC_setCb (i : Nat) (v : Int) : PresC (setCb i v) := by
  intro m st h
  have hp := cInvM_pollStopSt h
  obtain ⟨h1, h2, h3, h4, h5, h6⟩ := hp
  unfold setCb
  dsimp only
  split
  · exact ⟨h1, h2, h3, h4, h5, h6⟩
  · refine ⟨h1, by simp [h2], by simp [h3], by simp [h4]; ring, by simp [h5]; omega, ?_⟩
    simpa using h6

theorem presC_highlightCb (idxs : List Nat) (tag : String) :
    PresC (highlightCb idxs tag) := by
  intro m st h
  exact cInvM_pollStopSt h

theorem presC_markSortedCb (idxs : List Nat) : PresC (markSortedCb idxs) := by
  intro m st h
  have hp := cInvM_pollStopSt h
  obtain ⟨h1, h2, h3, h4, h5, h6⟩ := hp
  unfold markSortedCb
  dsimp only
  split
  · exact ⟨h1, h2, h3, h4, h5, h6⟩
  · exact ⟨h1, h2, h3, h4, h5, h6⟩

theorem presC_shouldStopQ : PresC shouldStopQ := fun _ _ h => h

theorem presC_readArr : PresC readArr := fun _ _ h => h

theorem presC_yieldD (d : StepD) : PresC (yieldD d) := by
  intro m st h
  obtain ⟨h1, h2, h3, h4, h5, h6⟩ := h
  exact ⟨h1, h2, h3, h4, h5, h6⟩

theorem presC_genSwap (i j : Nat) : PresC (genSwap i j) := by
  intro m st h
  obtain ⟨h1, h2, h3, h4, h5, h6⟩ := h
  exact ⟨h1, h2, h3, h4, h5, h6⟩

theorem presC_genWrite (i : Nat) (v : Int) : PresC (genWrite i v) := by
  intro m st h
  obtain ⟨h1, h2, h3, h4, h5, h6⟩ := h
  exact ⟨h1, h2, h3, h4, h5, h6⟩

theorem presC_bubbleInner (rem : Nat) : ∀ (j : Nat) (swapped : Bool),
    PresC (bubbleInner j rem swapped) := by
  induction rem with
  | zero => intro j swapped; exact presC_pure _
  | succ rem ih =>
      intro j swapped
      rw [bubbleInner]
      refine presC_bind presC_shouldStopQ (fun stop => ?_)
      cases stop
      · simp only [Bool.false_eq_true, if_false]
        refine presC_bind (presC_compareCb _ _) (fun b => ?_)
        refine presC_bind (presC_yieldD _) (fun _ => ?_)
        cases b
        · simp only [Bool.false_eq_true, if_false]; exact ih _ _
        · simp only [if_true]
          refine presC_bind (presC_swapCb _ _) (fun _ => ?_)
          refine presC_bind (presC_genSwap _ _) (fun _ => ?_)
          exact presC_bind (presC_yieldD _) (fun _ => ih _ _)
      · simp only [if_true]; exact presC_genRet

theorem presC_markRange (rem : Nat) : ∀ (k : Nat), PresC (markRange k rem) := by
  induction rem with
  | zero => intro k; exact presC_pure _
  | succ rem ih =>
      intro k
      rw [markRange]
      exact presC_bind (presC_markSortedCb _) (fun _ => ih _)

theorem presC_bubbleOuter (n : Nat) (rem : Nat) : ∀ (i : Nat),
    PresC (bubbleOuter n i rem) := by
  induction rem with
  | zero => intro i; exact presC_pure _
  | succ rem ih =>
      intro i
      rw [bubbleOuter]
      refine presC_bind (presC_bubbleInner _ _ _) (fun swapped => ?_)
      refine presC_bind (presC_markSortedCb _) (fun _ => ?_)
      cases swapped
      · simp only [Bool.false_eq_true, if_false]; exact presC_markRange _ _
      · simp only [if_true]; exact ih _

theorem presC_bubbleM : PresC bubbleM := by
  unfold bubbleM
  refine presC_genBody ?_
  refine presC_bind presC_readArr (fun arr => ?_)
  refine presC_bind (presC_bubbleOuter _ _ _) (fun _ => ?_)
  exact presC_bind (presC_markSortedCb _) (fun _ => presC_yieldD _)

theorem presC_selInner (rem : Nat) : ∀ (j minIdx : Nat),
    PresC (selInner j rem minIdx) := by
  induction rem with
  | zero => intro j minIdx; exact presC_pure _
  | succ rem ih =>
      intro j minIdx
      rw [selInner]
      refine presC_bind presC_shouldStopQ (fun stop => ?_)
      cases stop
      · simp only [Bool.false_eq_true, if_false]
        refine presC_bind (presC_compareCb _ _) (fun b => ?_)
        refine presC_bind (presC_yieldD _) (fun _ => ?_)
        cases b
        · simp only [Bool.false_eq_true, if_false]; exact ih _ _
        · simp only [if_true]
          refine presC_bind (presC_highlightCb _ _) (fun _ => ?_)
          exact presC_bind (presC_highlightCb _ _) (fun _ => ih _ _)
      · simp only [if_true]; exact presC_genRet

theorem presC_selOuter (n : Nat) (rem : Nat) : ∀ (i : Nat),
    PresC (selOuter n i rem) := by
  induction rem with
  | zero => intro i; exact presC_pure _
  | succ rem ih =>
      intro i
      rw [selOuter]
      refine presC_bind presC_shouldStopQ (fun stop => ?_)
      cases stop
      · simp only [Bool.false_eq_true, if_false]
        refine presC_bind (presC_highlightCb _ _) (fun _ => ?_)
        refine presC_bind (presC_selInner _ _ _) (fun minIdx => ?_)
        refine presC_bind (presC_ite ?_ (presC_pure _)) (fun _ => ?_)
        · refine presC_bind (presC_swapCb _ _) (fun _ => ?_)
          exact presC_bind (presC_genSwap _ _) (fun _ => presC_yieldD _)
        · exact presC_bind (presC_markSortedCb _) (fun _ => ih _)
      · simp only [if_true]; exact presC_genRet

theorem presC_selectionM : PresC selectionM := by
  unfold selectionM
  refine presC_genBody ?_
  refine presC_bind presC_readArr (fun arr => ?_)
  refine presC_bind (presC_selOuter _ _ _) (fun _ => ?_)
  exact presC_bind (presC_markSortedCb _) (fun _ => presC_yieldD _)

theorem presC_insInner (i : Nat) : ∀ (jj : Nat), PresC (insInner i jj) := by
  intro jj
  induction jj with
  | zero => exact presC_pure _
  | succ jj ih =>
      rw [insInner]
      refine presC_bind presC_shouldStopQ (fun stop => ?_)
      cases stop
      · simp only [Bool.false_eq_true, if_false]
        refine presC_bind (presC_compareCb _ _) (fun b => ?_)
        refine presC_bind (presC_yieldD _) (fun _ => ?_)
        cases b
        · simp only [Bool.not_false, if_true]; exact presC_pure _
        · simp only [Bool.not_true, Bool.false_eq_true, if_false]
          refine presC_bind (presC_swapCb _ _) (fun _ => ?_)
          refine presC_bind (presC_genSwap _ _) (fun _ => ?_)
          exact presC_bind (presC_yieldD _) (fun _ => ih)
      · simp only [if_true]; exact presC_genRet

theorem presC_insOuter (rem : Nat) : ∀ (i : Nat), PresC (insOuter i rem) := by
  induction rem with
  | zero => intro i; exact presC_pure _
  | succ rem ih =>
      intro i
      rw [insOuter]
      refine presC_bind presC_shouldStopQ (fun stop => ?_)
      cases stop
      · simp only [Bool.false_eq_true, if_false]
        refine presC_bind presC_readArr (fun arr => ?_)
        refine presC_bind (presC_highlightCb _ _) (fun _ => ?_)
        refine presC_bind (presC_insInner _ _) (fun jp => ?_)
        refine presC_bind (presC_genWrite _ _) (fun _ => ?_)
        exact presC_bind (presC_markSortedCb _) (fun _ => ih _)
      · simp only [if_true]; exact presC_genRet

theorem presC_insertionM : PresC insertionM := by
  unfold insertionM
  refine presC_genBody ?_
  refine presC_bind presC_readArr (fun arr => ?_)
  refine presC_bind (presC_markSortedCb _) (fun _ => ?_)
  exact presC_bind (presC_insOuter _ _) (fun _ => presC_yieldD _)

theorem presC_mergeLoop (start mid : Nat) (left right : List Int) (fuel : Nat) :
    ∀ (i j k : Nat), PresC (mergeLoop start mid left right i j k fuel) := by
  induction fuel with
  | zero => intro i j k; exact presC_pure _
  | succ fuel ih =>
      intro i j k
      rw [mergeLoop]
      refine presC_ite ?_ (presC_pure _)
      refine presC_bind presC_shouldStopQ (fun stop => ?_)
      cases stop
      · simp only [Bool.false_eq_true, if_false]
        refine presC_bind (presC_highlightCb _ _) (fun _ => ?_)
        refine presC_bind (presC_yieldD _) (fun _ => ?_)
        refine presC_ite ?_ ?_
        · refine presC_bind (presC_genWrite _ _) (fun _ => ?_)
          exact presC_bind (presC_setCb _ _) (fun _ => ih _ _ _)
        · refine presC_bind (presC_genWrite _ _) (fun _ => ?_)
          exact presC_bind (presC_setCb _ _) (fun _ => ih _ _ _)
      · simp only [if_true]; exact presC_genRet

theorem presC_mergeCopyLoop (src : List Int) (rem : Nat) :
    ∀ (i k : Nat), PresC (mergeCopyLoop src i k rem) := by
  induction rem with
  | zero => intro i k; exact presC_pure _
  | succ rem ih =>
      intro i k
      rw [mergeCopyLoop]
      refine presC_ite ?_ (presC_pure _)
      refine presC_bind presC_shouldStopQ (fun stop => ?_)
      cases stop
      · simp only [Bool.false_eq_true, if_false]
        refine presC_bind (presC_genWrite _ _) (fun _ => ?_)
        exact presC_bind (presC_setCb _ _) (fun _ => ih _ _)
      · simp only [if_true]; exact presC_genRet

theorem presC_highlightRange (rem : Nat) : ∀ (idx : Nat),
    PresC (highlightRange idx rem) := by
  induction rem with
  | zero => intro idx; exact presC_pure _
  | succ rem ih =>
      intro idx
      rw [highlightRange]
      exact presC_bind (presC_highlightCb _ _) (fun _ => ih _)

theorem presC_mergeStep (start mid hi : Nat) : PresC (mergeStep start mid hi) := by
  unfold mergeStep
  refine presC_genBody ?_
  refine presC_bind presC_readArr (fun arr => ?_)
  refine presC_bind (presC_highlightCb _ _) (fun _ => ?_)
  refine presC_bind (presC_mergeLoop _ _ _ _ _ _ _ _) (fun r => ?_)
  refine presC_bind (presC_mergeCopyLoop _ _ _ _) (fun k2 => ?_)
  refine presC_bind (presC_mergeCopyLoop _ _ _ _) (fun _ => ?_)
  exact presC_highlightRange _ _

theorem presC_mergeHelper (fuel : Nat) : ∀ (start hi : Nat),
    PresC (mergeHelper fuel start hi) := by
  induction fuel with
  | zero => intro start hi; exact presC_pure _
  | succ fuel ih =>
      intro start hi
      rw [mergeHelper]
      refine presC_genBody ?_
      refine presC_bind presC_shouldStopQ (fun stop => ?_)
      refine presC_ite presC_genRet ?_
      refine presC_bind (ih _ _) (fun _ => ?_)
      refine presC_bind presC_shouldStopQ (fun stop2 => ?_)
      cases stop2
      · simp only [Bool.false_eq_true, if_false]
        refine presC_bind (ih _ _) (fun _ => ?_)
        refine presC_bind presC_shouldStopQ (fun stop3 => ?_)
        cases stop3
        · simp only [Bool.false_eq_true, if_false]; exact presC_mergeStep _ _ _
        · simp only [if_true]; exact presC_genRet
      · simp only [if_true]; exact presC_genRet

theorem presC_mergeM : PresC mergeM := by
  unfold mergeM
  refine presC_genBody ?_
  refine presC_bind presC_readArr (fun arr => ?_)
  refine presC_bind (presC_mergeHelper _ _ _) (fun _ => ?_)
  refine presC_bind presC_shouldStopQ (fun stop => ?_)
  refine presC_bind (presC_ite (presC_pure _) (presC_markRange _ _)) (fun _ => ?_)
  exact presC_yieldD _

theorem presC_quickMaybeSwap {i : Int} {j : Nat} {arrj pivot : Int} :
    PresC (quickMaybeSwap i j arrj pivot) := by
  unfold quickMaybeSwap
  refine presC_ite ?_ (presC_pure _)
  refine presC_bind (presC_ite ?_ (presC_pure _)) (fun _ => presC_pure _)
  refine presC_bind (presC_swapCb _ _) (fun _ => ?_)
  exact presC_bind (presC_genSwap _ _) (fun _ => presC_yieldD _)

theorem presC_quickPartitionLoop (high : Nat) (pivot : Int) (rem : Nat) :
    ∀ (i : Int) (j : Nat), PresC (quickPartitionLoop high pivot i j rem) := by
  induction rem with
  | zero => intro i j; exact presC_pure _
  | succ rem ih =>
      intro i j
      rw [quickPartitionLoop]
      refine presC_bind presC_shouldStopQ (fun stop => ?_)
      cases stop
      · simp only [Bool.false_eq_true, if_false]
        refine presC_bind (presC_highlightCb _ _) (fun _ => ?_)
        refine presC_bind (presC_yieldD _) (fun _ => ?_)
        refine presC_bind presC_readArr (fun arr => ?_)
        refine presC_bind presC_quickMaybeSwap (fun i2 => ?_)
        exact presC_bind (presC_highlightCb _ _) (fun _ => ih _ _)
      · simp only [if_true]; exact presC_genRet

theorem presC_quickHelper (fuel : Nat) : ∀ (low high : Nat),
    PresC (quickHelper fuel low high) := by
  induction fuel with
  | zero => intro low high; exact presC_pure _
  | succ fuel ih =>
      intro low high
      rw [quickHelper]
      refine presC_genBody ?_
      refine presC_bind presC_shouldStopQ (fun stop => ?_)
      refine presC_ite presC_genRet ?_
      refine presC_bind presC_readArr (fun arr => ?_)
      refine presC_bind (presC_highlightCb _ _) (fun _ => ?_)
      refine presC_bind (presC_yieldD _) (fun _ => ?_)
      refine presC_bind (presC_quickPartitionLoop _ _ _ _ _) (fun i => ?_)
      refine presC_bind (presC_ite ?_ (presC_pure _)) (fun _ => ?_)
      · refine presC_bind (presC_swapCb _ _) (fun _ => ?_)
        exact presC_bind (presC_genSwap _ _) (fun _ => presC_yieldD _)
      · refine presC_bind (presC_highlightCb _ _) (fun _ => ?_)
        refine presC_bind (presC_markSortedCb _) (fun _ => ?_)
        exact presC_bind (ih _ _) (fun _ => ih _ _)

theorem presC_quickM : PresC quickM := by
  unfold quickM
  refine presC_genBody ?_
  refine presC_bind presC_readArr (fun arr => ?_)
  refine presC_bind (presC_quickHelper _ _ _) (fun _ => ?_)
  refine presC_bind presC_shouldStopQ (fun stop => ?_)
  refine presC_bind (presC_ite (presC_pure _) (presC_markRange _ _)) (fun _ => ?_)
  exact presC_yieldD _

theorem presC_heapifyCheckChild {largest child heapSize : Nat} :
    PresC (heapifyCheckChild largest child heapSize) := by
  unfold heapifyCheckChild
  refine presC_ite ?_ (presC_pure _)
  refine presC_bind presC_shouldStopQ (fun stop => ?_)
  refine presC_ite presC_genRet ?_
  refine presC_bind (presC_compareCb _ _) (fun _ => ?_)
  refine presC_bind (presC_yieldD _) (fun _ => ?_)
  refine presC_bind presC_readArr (fun arr => ?_)
  exact presC_ite (presC_pure _) (presC_pure _)

theorem presC_heapify (fuel : Nat) : ∀ (heapSize rootIdx : Nat),
    PresC (heapify fuel heapSize rootIdx) := by
  induction fuel with
  | zero => intro heapSize rootIdx; exact presC_pure _
  | succ fuel ih =>
      intro heapSize rootIdx
      rw [heapify]
      refine presC_genBody ?_
      refine presC_bind presC_heapifyCheckChild (fun largest1 => ?_)
      refine presC_bind presC_heapifyCheckChild (fun largest2 => ?_)
      refine presC_ite ?_ (presC_pure _)
      refine presC_bind (presC_swapCb _ _) (fun _ => ?_)
      refine presC_bind (presC_genSwap _ _) (fun _ => ?_)
      exact presC_bind (presC_yieldD _) (fun _ => ih _ _)

theorem presC_heapBuildLoop (n : Nat) (rem : Nat) : PresC (heapBuildLoop n rem) := by
  induction rem with
  | zero => exact presC_pure _
  | succ rem ih =>
      rw [heapBuildLoop]
      refine presC_bind presC_shouldStopQ (fun stop => ?_)
      refine presC_ite presC_genRet ?_
      exact presC_bind (presC_heapify _ _ _) (fun _ => ih)

theorem presC_heapExtractLoop (n : Nat) (rem : Nat) : PresC (heapExtractLoop n rem) := by
  induction rem with
  | zero => exact presC_pure _
  | succ rem ih =>
      rw [heapExtractLoop]
      refine presC_bind presC_shouldStopQ (fun stop => ?_)
      refine presC_ite presC_genRet ?_
      refine presC_bind (presC_swapCb _ _) (fun _ => ?_)
      refine presC_bind (presC_genSwap _ _) (fun _ => ?_)
      refine presC_bind (presC_yieldD _) (fun _ => ?_)
      refine presC_bind (presC_markSortedCb _) (fun _ => ?_)
      exact presC_bind (presC_heapify _ _ _) (fun _ => ih)

theorem presC_heapM : PresC heapM := by
  unfold heapM
  refine presC_genBody ?_
  refine presC_bind presC_readArr (fun arr => ?_)
  refine presC_bind (presC_heapBuildLoop _ _) (fun _ => ?_)
  refine presC_bind (presC_heapExtractLoop _ _) (fun _ => ?_)
  exact presC_bind (presC_markSortedCb _) (fun _ => presC_yieldD _)

theorem presC_countOccurLoop (minV : Int) (rem : Nat) :
    ∀ (i : Nat) (count : List Nat), PresC (countOccurLoop minV i rem count) := by
  induction rem with
  | zero => intro i count; exact presC_pure _
  | succ rem ih =>
      intro i count
      rw [countOccurLoop]
      refine presC_bind presC_shouldStopQ (fun stop => ?_)
      cases stop
      · simp only [Bool.false_eq_true, if_false]
        refine presC_bind presC_readArr (fun arr => ?_)
        refine presC_bind (presC_highlightCb _ _) (fun _ => ?_)
        refine presC_bind (presC_yieldD _) (fun _ => ?_)
        exact presC_bind (presC_highlightCb _ _) (fun _ => ih _ _)
      · simp only [if_true]; exact presC_genRet

theorem presC_countBuildLoop (minV : Int) (rem : Nat) :
    ∀ (count : List Nat) (output : List Int),
    PresC (countBuildLoop minV rem count output) := by
  induction rem with
  | zero => intro count output; exact presC_pure _
  | succ rem ih =>
      intro count output
      rw [countBuildLoop]
      refine presC_bind presC_shouldStopQ (fun stop => ?_)
      cases stop
      · simp only [Bool.false_eq_true, if_false]
        refine presC_bind presC_readArr (fun arr => ?_)
        refine presC_bind (presC_highlightCb _ _) (fun _ => ?_)
        exact presC_bind (presC_yieldD _) (fun _ => ih _ _)
      · simp only [if_true]; exact presC_genRet

theorem presC_countCopyLoop (output : List Int) (rem : Nat) :
    ∀ (i : Nat), PresC (countCopyLoop output i rem) := by
  induction rem with
  | zero => intro i; exact presC_pure _
  | succ rem ih =>
      intro i
      rw [countCopyLoop]
      refine presC_bind presC_shouldStopQ (fun stop => ?_)
      cases stop
      · simp only [Bool.false_eq_true, if_false]
        refine presC_bind (presC_genWrite _ _) (fun _ => ?_)
        refine presC_bind (presC_setCb _ _) (fun _ => ?_)
        refine presC_bind (presC_markSortedCb _) (fun _ => ?_)
        exact presC_bind (presC_yieldD _) (fun _ => ih _)
      · simp only [if_true]; exact presC_genRet

theorem presC_countingM : PresC countingM := by
  unfold countingM
  refine presC_genBody ?_
  refine presC_bind presC_readArr (fun arr => ?_)
  refine presC_ite presC_genRet ?_
  refine presC_bind (presC_countOccurLoop _ _ _ _) (fun count1 => ?_)
  refine presC_bind (presC_countBuildLoop _ _ _ _) (fun r => ?_)
  refine presC_bind (presC_countCopyLoop _ _ _) (fun _ => ?_)
  exact presC_yieldD _

theorem presC_radixCountLoop (exp : Int) (rem : Nat) :
    ∀ (i : Nat) (count : List Nat), PresC (radixCountLoop exp i rem count) := by
  induction rem with
  | zero => intro i count; exact presC_pure _
  | succ rem ih =>
      intro i count
      rw [radixCountLoop]
      refine presC_bind presC_shouldStopQ (fun stop => ?_)
      cases stop
      · simp only [Bool.false_eq_true, if_false]
        refine presC_bind presC_readArr (fun arr => ?_)
        refine presC_bind (presC_highlightCb _ _) (fun _ => ?_)
        refine presC_bind (presC_yieldD _) (fun _ => ?_)
        exact presC_bind (presC_highlightCb _ _) (fun _ => ih _ _)
      · simp only [if_true]; exact presC_genRet

theorem presC_radixBuildLoop (exp : Int) (rem : Nat) :
    ∀ (count : List Nat) (output : List Int),
    PresC (radixBuildLoop exp rem count output) := by
  induction rem with
  | zero => intro count output; exact presC_pure _
  | succ rem ih =>
      intro count output
      rw [radixBuildLoop]
      refine presC_bind presC_shouldStopQ (fun stop => ?_)
      cases stop
      · simp only [Bool.false_eq_true, if_false]
        exact presC_bind presC_readArr (fun arr => ih _ _)
      · simp only [if_true]; exact presC_genRet

theorem presC_radixCopyLoop (output : List Int) (rem : Nat) :
    ∀ (i : Nat), PresC (radixCopyLoop output i rem) := by
  induction rem with
  | zero => intro i; exact presC_pure _
  | succ rem ih =>
      intro i
      rw [radixCopyLoop]
      refine presC_bind presC_shouldStopQ (fun stop => ?_)
      cases stop
      · simp only [Bool.false_eq_true, if_false]
        refine presC_bind (presC_genWrite _ _) (fun _ => ?_)
        refine presC_bind (presC_setCb _ _) (fun _ => ?_)
        exact presC_bind (presC_yieldD _) (fun _ => ih _)
      · simp only [if_true]; exact presC_genRet

theorem presC_countingSortByDigitM (exp : Int) : PresC (countingSortByDigitM exp) := by
  unfold countingSortByDigitM
  refine presC_genBody ?_
  refine presC_bind presC_readArr (fun arr => ?_)
  refine presC_bind (presC_radixCountLoop _ _ _ _) (fun count1 => ?_)
  refine presC_bind (presC_radixBuildLoop _ _ _ _) (fun r => ?_)
  exact presC_radixCopyLoop _ _ _

theorem presC_radixWhile (maxV : Int) (fuel : Nat) : ∀ (exp : Int),
    PresC (radixWhile maxV fuel exp) := by
  induction fuel with
  | zero => intro exp; exact presC_pure _
  | succ fuel ih =>
      intro exp
      rw [radixWhile]
      refine presC_ite ?_ (presC_pure _)
      refine presC_bind presC_shouldStopQ (fun stop => ?_)
      refine presC_ite presC_genRet ?_
      exact presC_bind (presC_countingSortByDigitM _) (fun _ => ih _)

theorem presC_radixM : PresC radixM := by
  unfold radixM
  refine presC_genBody ?_
  refine presC_bind presC_readArr (fun arr => ?_)
  refine presC_ite presC_genRet ?_
  refine presC_bind (presC_radixWhile _ _ _) (fun _ => ?_)
  exact presC_bind (presC_markRange _ _) (fun _ => presC_yieldD _)

theorem presC_shellInnerLoop (gap : Nat) (fuel : Nat) : ∀ (j : Nat),
    PresC (shellInnerLoop gap j fuel) := by
  induction fuel with
  | zero => intro j; exact presC_pure _
  | succ fuel ih =>
      intro j
      rw [shellInnerLoop]
      refine presC_ite ?_ (presC_pure _)
      refine presC_bind presC_shouldStopQ (fun stop => ?_)
      refine presC_ite presC_genRet ?_
      refine presC_bind (presC_compareCb _ _) (fun b => ?_)
      refine presC_bind (presC_yieldD _) (fun _ => ?_)
      refine presC_ite (presC_pure _) ?_
      refine presC_bind (presC_swapCb _ _) (fun _ => ?_)
      refine presC_bind (presC_genSwap _ _) (fun _ => ?_)
      exact presC_bind (presC_yieldD _) (fun _ => ih _)

theorem presC_shellMidLoop (n gap : Nat) (rem : Nat) : ∀ (i : Nat),
    PresC (shellMidLoop n gap i rem) := by
  induction rem with
  | zero => intro i; exact presC_pure _
  | succ rem ih =>
      intro i
      rw [shellMidLoop]
      refine presC_bind presC_shouldStopQ (fun stop => ?_)
      refine presC_ite presC_genRet ?_
      refine presC_bind presC_readArr (fun arr => ?_)
      refine presC_bind (presC_highlightCb _ _) (fun _ => ?_)
      refine presC_bind (presC_shellInnerLoop _ _ _) (fun j => ?_)
      refine presC_bind (presC_genWrite _ _) (fun _ => ?_)
      exact presC_bind (presC_highlightCb _ _) (fun _ => ih _)

theorem presC_shellGapLoop (n : Nat) (fuel : Nat) : ∀ (gap : Nat),
    PresC (shellGapLoop n gap fuel) := by
  induction fuel with
  | zero => intro gap; exact presC_pure _
  | succ fuel ih =>
      intro gap
      rw [shellGapLoop]
      refine presC_ite ?_ (presC_pure _)
      exact presC_bind (presC_shellMidLoop _ _ _ _) (fun _ => ih _)

theorem presC_shellM : PresC shellM := by
  unfold shellM
  refine presC_genBody ?_
  refine presC_bind presC_readArr (fun arr => ?_)
  refine presC_bind (presC_shellGapLoop _ _ _) (fun _ => ?_)
  exact presC_bind (presC_markRange _ _) (fun _ => presC_yieldD _)

theorem cInvM_freshSt (arr : List Int) (speed : Int) (mode : Mode)
    (stopAt : Option Nat) : CInvM mode (freshSt arr speed mode stopAt) := by
  refine ⟨rfl, rfl, rfl, rfl, rfl, ?_⟩
  unfold freshSt
  split <;> rfl

theorem presC_registry : ∀ p ∈ registryM, PresC p.2 := by
  intro p hp
  simp only [registryM, List.mem_cons, List.not_mem_nil, or_false] at hp
  rcases hp with rfl | rfl | rfl | rfl | rfl | rfl | rfl | rfl | rfl
  · exact presC_bubbleM
  · exact presC_selectionM
  · exact presC_insertionM
  · exact presC_mergeM
  · exact presC_quickM
  · exact presC_heapM
  · exact presC_countingM
  · exact presC_radixM
  · exact presC_shellM

theorem executeModel_cinv (name : String) (alg : EM Unit) (arr : List Int)
    (speed : Int) (mode : Mode) (stopAt : Option Nat) (hpres : PresC alg) :
    CInvM mode (executeModel name alg arr speed mode stopAt).2 := by
  have h0 := cInvM_freshSt arr speed mode stopAt
  have h1 := hpres mode (freshSt arr speed mode stopAt) h0
  obtain ⟨a1, a2, a3, a4, a5, a6⟩ := h1
  exact ⟨a1, a2, a3, a4, a5, a6⟩

/-! ## Per-call effect lemmas for the primitives -/

theorem compareCb_ok_counters (i j : Nat) (st : St) (b : Bool) (st2 : St)
    (h : compareCb i j st = (Except.ok b, st2)) :
    st2.comparisons = st.comparisons + 1 ∧
    st2.monComparisons = st.monComparisons + 1 ∧
    st2.monAccesses = st.monAccesses + 2 ∧
    st2.accesses = st.accesses ∧
    st2.swaps = st.swaps ∧
    st2.monSwaps = st.monSwaps := by
  unfold compareCb at h
  dsimp only at h
  split at h
  · simp at h
  · rw [Prod.ext_iff] at h
    obtain ⟨hb, hst⟩ := h
    subst hst
    exact ⟨rfl, rfl, rfl, rfl, rfl, rfl⟩

theorem swapCb_ok_counters (i j : Nat) (st : St) (st2 : St)
    (h : swapCb i j st = (Except.ok (), st2)) :
    st2.swaps = st.swaps + 1 ∧
    st2.monSwaps = st.monSwaps + 1 ∧
    st2.monAccesses = st.monAccesses + 4 ∧
    st2.accesses = st.accesses ∧
    st2.comparisons = st.comparisons ∧
    st2.monComparisons = st.monComparisons := by
  unfold swapCb at h
  dsimp only at h
  split at h
  · simp at h
  · rw [Prod.ext_iff] at h
    obtain ⟨hb, hst⟩ := h
    subst hst
    exact ⟨rfl, rfl, rfl, rfl, rfl, rfl⟩

theorem setCb_ok_counters (i : Nat) (v : Int) (st : St) (st2 : St)
    (h : setCb i v st = (Except.ok (), st2)) :
    st2.monAccesses = st.monAccesses + 2 ∧
    st2.accesses = st.accesses + 2 ∧
    st2.setCalls = st.setCalls + 1 ∧
    st2.comparisons = st.comparisons ∧
    st2.swaps = st.swaps ∧
    st2.monComparisons = st.monComparisons ∧
    st2.monSwaps = st.monSwaps := by
  unfold setCb at h
  dsimp only at h
  split at h
  · simp at h
  · rw [Prod.ext_iff] at h
    obtain ⟨hb, hst⟩ := h
    subst hst
    exact ⟨rfl, rfl, rfl, rfl, rfl, rfl, rfl⟩

theorem highlightCb_counters (idxs : List Nat) (tag : String) (st : St) :
    ((highlightCb idxs tag) st).2.comparisons = st.comparisons ∧
    ((highlightCb idxs tag) st).2.swaps = st.swaps ∧
    ((highlightCb idxs tag) st).2.accesses = st.accesses ∧
    ((highlightCb idxs tag) st).2.monComparisons = st.monComparisons ∧
    ((highlightCb idxs tag) st).2.monSwaps = st.monSwaps ∧
    ((highlightCb idxs tag) st).2.monAccesses = st.monAccesses :=
  ⟨rfl, rfl, rfl, rfl, rfl, rfl⟩

theorem markSortedCb_counters (idxs : List Nat) (st : St) :
    ((markSortedCb idxs) st).2.comparisons = st.comparisons ∧
    ((markSortedCb idxs) st).2.swaps = st.swaps ∧
    ((markSortedCb idxs) st).2.accesses = st.accesses ∧
    ((markSortedCb idxs) st).2.monComparisons = st.monComparisons ∧
    ((markSortedCb idxs) st).2.monSwaps = st.monSwaps ∧
    ((markSortedCb idxs) st).2.monAccesses = st.monAccesses := by
  unfold markSortedCb
  dsimp only
  split
  · exact ⟨rfl, rfl, rfl, rfl, rfl, rfl⟩
  · exact ⟨rfl, rfl, rfl, rfl, rfl, rfl⟩

theorem compareCb_accesses (i j : Nat) (st : St) :
    ((compareCb i j) st).2.accesses = st.accesses := by
  unfold compareCb
  dsimp only
  split
  · rfl
  · rfl

theorem swapCb_accesses (i j : Nat) (st : St) :
    ((swapCb i j) st).2.accesses = st.accesses := by
  unfold swapCb
  dsimp only
  split
  · rfl
  · rfl

theorem executeModel_result_proj (name : String) (alg : EM Unit) (arr : List Int)
    (speed : Int) (mode : Mode) (stopAt : Option Nat) :
    (executeModel name alg arr speed mode stopAt).1.totalComparisons
      = (executeModel name alg arr speed mode stopAt).2.comparisons ∧
    (executeModel name alg arr speed mode stopAt).1.totalSwaps
      = (executeModel name alg arr speed mode stopAt).2.swaps ∧
    (executeModel name alg arr speed mode stopAt).1.totalAccesses
      = (executeModel name alg arr speed mode stopAt).2.monAccesses :=
  ⟨rfl, rfl, rfl⟩

/-! ## Claim theorems -/

/-- C3: In step mode, the `compare` primitive is the only one of the five
primitives that suspends awaiting an external step signal after its delay
(in the embedding, `stepWaits` — the count of such suspensions — is bumped
exclusively inside `compareCb`), so for every run of one of the nine
registered sorting sequences in step mode the number of `step()` calls
required to drive the run to completion equals the number of `compare`
operations recorded for that run. -/
theorem step_mode_waits_eq_comparisons (name : String) (alg : EM Unit)
    (hp : (name, alg) ∈ registryM) (arr : List Int) (speed : Int) :
    (executeModel name alg arr speed Mode.step none).2.stepWaits
      = (executeModel name alg arr speed Mode.step none).1.totalComparisons := by
  have hpres : PresC alg := presC_registry (name, alg) hp
  have hc := executeModel_cinv name alg arr speed Mode.step none hpres
  obtain ⟨_, _, _, _, _, h6⟩ := hc
  have hr := (executeModel_result_proj name alg arr speed Mode.step none).1
  rw [hr]
  simpa using h6

/-- Witness for C3: a concrete step-mode bubble-sort run. -/
theorem step_mode_waits_eq_comparisons_witness :
    (executeModel "bubble-sort" bubbleM [3, 1, 2] 5 Mode.step none).2.stepWaits
      = (executeModel "bubble-sort" bubbleM [3, 1, 2] 5 Mode.step none).1.totalComparisons :=
  step_mode_waits_eq_comparisons "bubble-sort" bubbleM
    (List.mem_cons_self _ _) [3, 1, 2] 5

/-- C4: each successful `compare` call adds exactly 1 to the comparison
count and 2 to the memory-access count, each successful `swap` call adds
exactly 1 to the swap count and 4 to the memory-access count, each
successful `set` call adds exactly 2 to the memory-access count, and
`highlight` and `markSorted` change no counters; consequently, for every
run of a registered sequence, the Result's `totalAccesses` equals
`2 · totalComparisons + 4 · totalSwaps + 2 · (number of set calls)`. -/
theorem access_accounting :
    (∀ (i j : Nat) (st : St) (b : Bool) (st2 : St),
        compareCb i j st = (Except.ok b, st2) →
          st2.comparisons = st.comparisons + 1 ∧
          st2.monComparisons = st.monComparisons + 1 ∧
          st2.monAccesses = st.monAccesses + 2) ∧
    (∀ (i j : Nat) (st st2 : St),
        swapCb i j st = (Except.ok (), st2) →
          st2.swaps = st.swaps + 1 ∧
          st2.monSwaps = st.monSwaps + 1 ∧
          st2.monAccesses = st.monAccesses + 4) ∧
    (∀ (i : Nat) (v : Int) (st st2 : St),
        setCb i v st = (Except.ok (), st2) →
          st2.monAccesses = st.monAccesses + 2 ∧
          st2.setCalls = st.setCalls + 1) ∧
    (∀ (idxs : List Nat) (tag : String) (st : St),
        ((highlightCb idxs tag) st).2.comparisons = st.comparisons ∧
        ((highlightCb idxs tag) st).2.swaps = st.swaps ∧
        ((highlightCb idxs tag) st).2.accesses = st.accesses ∧
        ((highlightCb idxs tag) st).2.monAccesses = st.monAccesses) ∧
    (∀ (idxs : List Nat) (st : St),
        ((markSortedCb idxs) st).2.comparisons = st.comparisons ∧
        ((markSortedCb idxs) st).2.swaps = st.swaps ∧
        ((markSortedCb idxs) st).2.accesses = st.accesses ∧
        ((markSortedCb idxs) st).2.monAccesses = st.monAccesses) ∧
    (∀ (name : String) (alg : EM Unit), (name, alg) ∈ registryM →
        ∀ (arr : List Int) (speed : Int) (mode : Mode) (stopAt : Option Nat),
        (executeModel name alg arr speed mode stopAt).1.totalAccesses
          = 2 * (executeModel name alg arr speed mode stopAt).1.totalComparisons
            + 4 * (executeModel name alg arr speed mode stopAt).1.totalSwaps
            + 2 * (executeModel name alg arr speed mode stopAt).2.setCalls) := by
  refine ⟨?_, ?_, ?_, ?_, ?_, ?_⟩
  · intro i j st b st2 h
    obtain ⟨h1, h2, h3, _, _, _⟩ := compareCb_ok_counters i j st b st2 h
    exact ⟨h1, h2, h3⟩
  · intro i j st st2 h
    obtain ⟨h1, h2, h3, _, _, _⟩ := swapCb_ok_counters i j st st2 h
    exact ⟨h1, h2, h3⟩
  · intro i v st st2 h
    obtain ⟨h1, _, h3, _, _, _, _⟩ := setCb_ok_counters i v st st2 h
    exact ⟨h1, h3⟩
  · intro idxs tag st
    obtain ⟨h1, h2, h3, _, _, h6⟩ := highlightCb_counters idxs tag st
    exact ⟨h1, h2, h3, h6⟩
  · intro idxs st
    obtain ⟨h1, h2, h3, _, _, h6⟩ := markSortedCb_counters idxs st
    exact ⟨h1, h2, h3, h6⟩
  · intro name alg hp arr speed mode stopAt
    have hpres : PresC alg := presC_registry (name, alg) hp
    have hc := executeModel_cinv name alg arr speed mode stopAt hpres
    obtain ⟨_, _, _, h4, _, _⟩ := hc
    obtain ⟨r1, r2, r3⟩ := executeModel_result_proj name alg arr speed mode stopAt
    rw [r1, r2, r3, h4]

/-- Witness for C4: a concrete heap-sort run instantiating the run-level
equation of the claim. -/
theorem access_accounting_witness :
    (executeModel "heap-sort" heapM [3, 1, 2] 5 Mode.continuous none).1.totalAccesses
      = 2 * (executeModel "heap-sort" heapM [3, 1, 2] 5 Mode.continuous none).1.totalComparisons
        + 4 * (executeModel "heap-sort" heapM [3, 1, 2] 5 Mode.continuous none).1.totalSwaps
        + 2 * (executeModel "heap-sort" heapM [3, 1, 2] 5 Mode.continuous none).2.setCalls :=
  access_accounting.2.2.2.2.2 "heap-sort" heapM
    (by simp [registryM]) [3, 1, 2] 5 Mode.continuous none

/-- C10: the `accesses` counter of the engine state is incremented only by
the `set` primitive (by 2 per successful call) — `compare` and `swap`
leave it unchanged — while the performance monitor's memory-access count
additionally grows by 2 per comparison and 4 per swap; hence for every run
of a registered sequence, `Result.totalAccesses` is at least the engine
state's `accesses` field, with equality exactly when the run performed no
comparison and no swap. -/
theorem engine_accesses_vs_monitor_accesses :
    (∀ (i : Nat) (v : Int) (st st2 : St),
        setCb i v st = (Except.ok (), st2) → st2.accesses = st.accesses + 2) ∧
    (∀ (i j : Nat) (st : St), ((compareCb i j) st).2.accesses = st.accesses) ∧
    (∀ (i j : Nat) (st : St), ((swapCb i j) st).2.accesses = st.accesses) ∧
    (∀ (name : String) (alg : EM Unit), (name, alg) ∈ registryM →
        ∀ (arr : List Int) (speed : Int) (mode : Mode) (stopAt : Option Nat),
        (executeModel name alg arr speed mode stopAt).2.accesses
          ≤ (executeModel name alg arr speed mode stopAt).1.totalAccesses ∧
        ((executeModel name alg arr speed mode stopAt).1.totalAccesses
            = (executeModel name alg arr speed mode stopAt).2.accesses ↔
          (executeModel name alg arr speed mode stopAt).1.totalComparisons = 0 ∧
          (executeModel name alg arr speed mode stopAt).1.totalSwaps = 0)) := by
  refine ⟨?_, ?_, ?_, ?_⟩
  · intro i v st st2 h
    exact (setCb_ok_counters i v st st2 h).2.1
  · exact compareCb_accesses
  · exact swapCb_accesses
  · intro name alg hp arr speed mode stopAt
    have hpres : PresC alg := presC_registry (name, alg) hp
    have hc := executeModel_cinv name alg arr speed mode stopAt hpres
    obtain ⟨_, _, _, h4, h5, _⟩ := hc
    obtain ⟨r1, r2, r3⟩ := executeModel_result_proj name alg arr speed mode stopAt
    constructor
    · rw [r3, h4, h5]
      omega
    · rw [r1, r2, r3, h4, h5]
      omega

/-- Witness for C10: a concrete merge-sort run instantiating the run-level
inequality of the claim (merge sort performs no `compare`-callback calls
and no swaps, so equality holds there). -/
theorem engine_accesses_vs_monitor_accesses_witness :
    (executeModel "merge-sort" mergeM [3, 1, 2] 5 Mode.continuous none).2.accesses
      ≤ (executeModel "merge-sort" mergeM [3, 1, 2] 5 Mode.continuous none).1.totalAccesses ∧
    ((executeModel "merge-sort" mergeM [3, 1, 2] 5 Mode.continuous none).1.totalAccesses
        = (executeModel "merge-sort" mergeM [3, 1, 2] 5 Mode.continuous none).2.accesses ↔
      (executeModel "merge-sort" mergeM [3, 1, 2] 5 Mode.continuous none).1.totalComparisons = 0 ∧
      (executeModel "merge-sort" mergeM [3, 1, 2] 5 Mode.continuous none).1.totalSwaps = 0) :=
  engine_accesses_vs_monitor_accesses.2.2.2 "merge-sort" mergeM
    (by simp [registryM]) [3, 1, 2] 5 Mode.continuous none

/-- C1 (code bug): the spec requires every completed run to return a
sorted ascending permutation of the input, but `execute` passes its own
state array to the generator, so the `swap` callback's in-place exchange
and the sequence's destructuring exchange both hit the same array and
cancel out: the completed `bubble-sort` run on `[2, 1]` succeeds yet
returns `[2, 1]`, which is not sorted ascending. -/
theorem bubble_run_on_two_one_not_sorted :
    (executeModel "bubble-sort" bubbleM [2, 1] 10 Mode.continuous none).1.success = true ∧
    (executeModel "bubble-sort" bubbleM [2, 1] 10 Mode.continuous none).1.finalArray = [2, 1] ∧
    ¬ List.Sorted (· ≤ ·)
        (executeModel "bubble-sort" bubbleM [2, 1] 10 Mode.continuous none).1.finalArray := by
  have hrun : (executeModel "bubble-sort" bubbleM [2, 1] 10 Mode.continuous none).1.success = true ∧
      (executeModel "bubble-sort" bubbleM [2, 1] 10 Mode.continuous none).1.finalArray = [2, 1] := by
    constructor <;>
      simp [executeModel, freshSt, bubbleM, genBody, bubbleOuter, bubbleInner, markRange,
        EM.bind_def, EM.bind, compareCb, swapCb, setCb, highlightCb, markSortedCb,
        yieldD, shouldStopQ, readArr, genSwap, genWrite, pollStopSt, jsSwap, jsGet,
        throwM, genRet, pure]
  refine ⟨hrun.1, hrun.2, ?_⟩
  rw [hrun.2]
  decide

/-- C5: for every integer speed input, the delay used by the primitives
equals the fixed table 1→1000ms, 2→800, 3→600, 4→400, 5→250, 6→150,
7→100, 8→50, 9→25, 10→10ms, with the speed clamped into [1, 10] before
the table lookup, so any speed below 1 yields 1000ms and any speed above
10 yields 10ms. -/
theorem delay_table_clamped (s : Int) :
    (s < 1 → getDelayForSpeed s = 1000) ∧
    (10 < s → getDelayForSpeed s = 10) ∧
    getDelayForSpeed 1 = 1000 ∧ getDelayForSpeed 2 = 800 ∧
    getDelayForSpeed 3 = 600 ∧ getDelayForSpeed 4 = 400 ∧
    getDelayForSpeed 5 = 250 ∧ getDelayForSpeed 6 = 150 ∧
    getDelayForSpeed 7 = 100 ∧ getDelayForSpeed 8 = 50 ∧
    getDelayForSpeed 9 = 25 ∧ getDelayForSpeed 10 = 10 := by
  refine ⟨?_, ?_, rfl, rfl, rfl, rfl, rfl, rfl, rfl, rfl, rfl, rfl⟩
  · intro hs
    have h1 : max 1 (min 10 s) = 1 := by omega
    rw [getDelayForSpeed, h1]
    rfl
  · intro hs
    have h1 : max 1 (min 10 s) = 10 := by omega
    rw [getDelayForSpeed, h1]
    rfl

/-- Witness for C5: the clamping branches at speeds 0 and 11. -/
theorem delay_table_clamped_witness :
    getDelayForSpeed 0 = 1000 ∧ getDelayForSpeed 11 = 10 :=
  ⟨(delay_table_clamped 0).1 (by norm_num),
   (delay_table_clamped 11).2.1 (by norm_num)⟩

/-- C6: for every run cancelled by a `stop()` that arrives before natural
completion (modelled by the stop oracle firing, so the final state is
stopped), the run still resolves — `executeModel` is a total function, as
`execute` catches every exception including the internal cancellation
signal — to a Result with `success = false` and no `error` field. -/
theorem stopped_run_resolves_success_false (name : String) (alg : EM Unit)
    (arr : List Int) (speed : Int) (mode : Mode) (k : Nat)
    (h : (executeModel name alg arr speed mode (some k)).2.isStopped = true) :
    (executeModel name alg arr speed mode (some k)).1.success = false ∧
    (executeModel name alg arr speed mode (some k)).1.error = none := by
  refine ⟨?_, rfl⟩
  have hs : (executeModel name alg arr speed mode (some k)).1.success
      = !(executeModel name alg arr speed mode (some k)).2.isStopped := rfl
  rw [hs, h]
  rfl

/-- Witness for C6: a bubble-sort run on `[2, 1]` with a `stop()` arriving
at the first primitive entry. -/
theorem stopped_run_resolves_success_false_witness :
    (executeModel "bubble-sort" bubbleM [2, 1] 5 Mode.continuous (some 0)).1.success = false ∧
    (executeModel "bubble-sort" bubbleM [2, 1] 5 Mode.continuous (some 0)).1.error = none :=
  stopped_run_resolves_success_false "bubble-sort" bubbleM [2, 1] 5 Mode.continuous 0
    (by simp [executeModel, freshSt, bubbleM, genBody, bubbleOuter, bubbleInner, markRange,
      EM.bind_def, EM.bind, compareCb, swapCb, setCb, highlightCb, markSortedCb,
      yieldD, shouldStopQ, readArr, genSwap, genWrite, pollStopSt, jsSwap, jsGet,
      throwM, genRet, pure])

/-- A sequence that raises an exception other than the internal
cancellation signal (a stand-in for an unexpected fault inside a
generator). -/
def boomSeq : EM Unit := throwM (GErr.thrown "boom")

/-- C7 counterexample: a run whose sequence raises an unexpected exception
while the engine was never stopped resolves with `success = true` — not
the failed Result (`success = false`) the claim asserts. -/
theorem unexpected_error_run_succeeds :
    (executeModel "bubble-sort" boomSeq [1, 2] 5 Mode.continuous none).1.success = true := rfl

/-- C7 (amended): for every run in which the sequence raises an exception,
the exception is caught at the controller boundary and the run resolves to
a Result rather than propagating — but the Result's `success` field simply
negates the stopped flag (so it is `true`, not `false`, when the engine was
not stopped) and its `error` field is never set. -/
theorem sequence_exception_caught_at_controller (name : String) (alg : EM Unit)
    (arr : List Int) (speed : Int) (mode : Mode) (stopAt : Option Nat) :
    (executeModel name alg arr speed mode stopAt).1.error = none ∧
    (executeModel name alg arr speed mode stopAt).1.success
      = !(executeModel name alg arr speed mode stopAt).2.isStopped :=
  ⟨rfl, rfl⟩

/-- An engine box whose engine is mid-run (`isRunning = true`) when the
next `executeRun` request arrives. -/
def runningBox : EngineBox :=
  { st := freshSt [3, 1] 5 Mode.continuous none, monitorStarted := false }

/-- C8 counterexample: a `run` request with an empty caller-supplied array
while a previous run is still in flight does fail with the validation
error, but the engine state *is* mutated — `executeRun` stops the
in-flight run before validating the array — contradicting the claim's
"no engine state is mutated". -/
theorem invalid_array_request_still_mutates_engine_state :
    (executeRunModel runningBox "bubble-sort"
        { speed := none, mode := none, inputSize := none, inputArray := some [] }
        (fun _ => []) none).1 = Except.error "Array cannot be empty" ∧
    (executeRunModel runningBox "bubble-sort"
        { speed := none, mode := none, inputSize := none, inputArray := some [] }
        (fun _ => []) none).2.st ≠ runningBox.st := by
  constructor
  · rfl
  · intro h
    have h2 := congrArg St.isStopped h
    simp [executeRunModel, getSortingAlgorithmM, registryM, runningBox, freshSt,
      validateArray, stopSt] at h2

/-- C8 (amended): for every `run` request on an initialized executor with
a known algorithm name whose caller-supplied input array fails validation
(empty, longer than the configured maximum 500, or containing a
non-numeric or NaN value), the request throws the validation error
synchronously before the algorithm starts: the performance-monitor timer
is never started and the engine state is untouched except that a previous
run still in flight is stopped (the stop is issued before validation). -/
theorem invalid_array_rejected_before_execute (box : EngineBox) (name : String)
    (opts : RunOptions) (gen : Nat → List Int) (stopAt : Option Nat)
    (alg : EM Unit) (hname : getSortingAlgorithmM name = some alg)
    (arr : List JVal) (harr : opts.inputArray = some arr)
    (e : String) (hval : validateArray arr 500 = some e) :
    executeRunModel box name opts gen stopAt
      = (Except.error e,
         if box.st.isRunning then { box with st := stopSt box.st } else box) := by
  simp only [executeRunModel, hname, harr, hval]

/-- Witness for C8 (amended): an idle engine rejecting an array containing
`NaN`; the state is returned untouched. -/
theorem invalid_array_rejected_before_execute_witness :
    executeRunModel { st := stopSt (freshSt [] 5 Mode.continuous none), monitorStarted := false }
        "bubble-sort"
        { speed := none, mode := none, inputSize := none, inputArray := some [JVal.nan] }
        (fun _ => []) none
      = (Except.error "Invalid value at index 0",
         if (stopSt (freshSt [] 5 Mode.continuous none)).isRunning then
           { st := stopSt (stopSt (freshSt [] 5 Mode.continuous none)), monitorStarted := false }
         else { st := stopSt (freshSt [] 5 Mode.continuous none), monitorStarted := false }) :=
  invalid_array_rejected_before_execute
    { st := stopSt (freshSt [] 5 Mode.continuous none), monitorStarted := false }
    "bubble-sort"
    { speed := none, mode := none, inputSize := none, inputArray := some [JVal.nan] }
    (fun _ => []) none bubbleM rfl [JVal.nan] rfl "Invalid value at index 0" rfl

/-! ## The double-swap cancellation and the no-stop run calculus

The claims about completed runs are proved by threading two facts through
each sequence: under `NoStop` (the stopped flag is down and the stop
oracle never fires) every primitive returns normally, and the shared
array is only ever modified by in-bounds `jsSwap` pairs (the callback's
exchange immediately followed by the generator's own exchange), which
cancel. -/

theorem jsSwap_length (l : List Int) (i j : Nat) :
    (jsSwap l i j).length = l.length := by
  simp [jsSwap]

theorem jsGet_lt (l : List Int) (i : Nat) (h : i < l.length) :
    jsGet l i = l[i] := List.getD_eq_getElem l 0 h

theorem jsSwap_getElem (l : List Int) (i j : Nat)
    (hi : i < l.length) (hj : j < l.length) (k : Nat)
    (hk : k < (jsSwap l i j).length) (hk0 : k < l.length) :
    (jsSwap l i j)[k]
      = if j = k then l[i] else if i = k then l[j] else l[k] := by
  simp only [jsSwap, jsGet_lt _ _ hi, jsGet_lt _ _ hj]
  simp [List.getElem_set]

theorem jsSwap_jsSwap (l : List Int) (i j : Nat)
    (hi : i < l.length) (hj : j < l.length) :
    jsSwap (jsSwap l i j) i j = l := by
  have hi1 : i < (jsSwap l i j).length := by rw [jsSwap_length]; exact hi
  have hj1 : j < (jsSwap l i j).length := by rw [jsSwap_length]; exact hj
  apply List.ext_getElem
  · simp [jsSwap]
  · intro k h1 h2
    have h2w : k < (jsSwap l i j).length := by rw [jsSwap_length]; exact h2
    have e2 := jsSwap_getElem (jsSwap l i j) i j hi1 hj1 k h1 h2w
    have ei := jsSwap_getElem l i j hi hj i hi1 hi
    have ej := jsSwap_getElem l i j hi hj j hj1 hj
    have ek := jsSwap_getElem l i j hi hj k h2w h2
    rw [e2, ei, ej, ek]
    by_cases hjk : j = k <;> by_cases hik : i = k <;> by_cases hij : i = j <;>
      simp [hjk, hik, hij] <;> omega

/-- The state is free of stopping: the flag is down and the external
`stop()` oracle never fires. -/
def NoStop (st : St) : Prop := st.isStopped = false ∧ st.stopAt = none

theorem pollStopSt_noStop {st : St} (h : NoStop st) :
    pollStopSt st = { st with opCount := st.opCount + 1 } := by
  obtain ⟨h1, h2⟩ := h
  simp [pollStopSt, h1, h2]

theorem shouldStopQ_noStop {st : St} (h : NoStop st) :
    shouldStopQ st = (Except.ok false, st) := by
  unfold shouldStopQ
  rw [h.1]

theorem yieldD_apply (d : StepD) (st : St) :
    yieldD d st = (Except.ok (), { st with steps := st.steps ++ [d] }) := rfl

theorem genSwap_apply (i j : Nat) (st : St) :
    genSwap i j st = (Except.ok (), { st with array := jsSwap st.array i j }) := rfl

theorem genWrite_apply (i : Nat) (v : Int) (st : St) :
    genWrite i v st = (Except.ok (), { st with array := st.array.set i v }) := rfl

theorem readArr_apply (st : St) :
    readArr st = (Except.ok st.array, st) := rfl

theorem highlightCb_noStop (idxs : List Nat) (tag : String) {st : St} (h : NoStop st) :
    highlightCb idxs tag st
      = (Except.ok (), { st with opCount := st.opCount + 1 }) := by
  unfold highlightCb
  rw [pollStopSt_noStop h]

theorem compareCb_noStop (i j : Nat) {st : St} (h : NoStop st) :
    ∃ (b : Bool) (st2 : St), compareCb i j st = (Except.ok b, st2) ∧ NoStop st2 ∧
      st2.array = st.array ∧ st2.sortedMarks = st.sortedMarks := by
  unfold compareCb
  rw [pollStopSt_noStop h]
  dsimp only
  rw [if_neg (by simp [h.1])]
  exact ⟨_, _, rfl, ⟨h.1, h.2⟩, rfl, rfl⟩

theorem swapCb_noStop (i j : Nat) {st : St} (h : NoStop st) :
    ∃ (st2 : St), swapCb i j st = (Except.ok (), st2) ∧ NoStop st2 ∧
      st2.array = jsSwap st.array i j ∧ st2.sortedMarks = st.sortedMarks := by
  unfold swapCb
  rw [pollStopSt_noStop h]
  dsimp only
  rw [if_neg (by simp [h.1])]
  exact ⟨_, rfl, ⟨h.1, h.2⟩, rfl, rfl⟩

theorem setCb_noStop (i : Nat) (v : Int) {st : St} (h : NoStop st) :
    ∃ (st2 : St), setCb i v st = (Except.ok (), st2) ∧ NoStop st2 ∧
      st2.array = st.array.set i v ∧ st2.sortedMarks = st.sortedMarks := by
  unfold setCb
  rw [pollStopSt_noStop h]
  dsimp only
  rw [if_neg (by simp [h.1])]
  exact ⟨_, rfl, ⟨h.1, h.2⟩, rfl, rfl⟩

theorem markSortedCb_noStop (idxs : List Nat) {st : St} (h : NoStop st) :
    ∃ (st2 : St), markSortedCb idxs st = (Except.ok (), st2) ∧ NoStop st2 ∧
      st2.array = st.array ∧ st2.sortedMarks = st.sortedMarks ++ idxs ∧
      st2.comparisons = st.comparisons ∧ st2.swaps = st.swaps := by
  unfold markSortedCb
  rw [pollStopSt_noStop h]
  dsimp only
  rw [if_neg (by simp [h.1])]
  exact ⟨_, rfl, ⟨h.1, h.2⟩, rfl, rfl, rfl, rfl⟩

theorem EM_bind_ok {α β : Type} {m : EM α} {k : α → EM β} {st st1 : St} {a : α}
    (h : m st = (Except.ok a, st1)) : (m >>= k) st = k a st1 := by
  rw [EM.bind_def]
  unfold EM.bind
  rw [h]

theorem yieldD_noStop (d : StepD) {st : St} (h : NoStop st) :
    ∃ (st2 : St), yieldD d st = (Except.ok (), st2) ∧ NoStop st2 ∧
      st2.array = st.array ∧ st2.sortedMarks = st.sortedMarks ∧
      st2.comparisons = st.comparisons ∧ st2.swaps = st.swaps ∧
      st2.steps = st.steps ++ [d] :=
  ⟨_, rfl, h, rfl, rfl, rfl, rfl, rfl⟩

theorem genSwap_noStop (i j : Nat) {st : St} (h : NoStop st) :
    ∃ (st2 : St), genSwap i j st = (Except.ok (), st2) ∧ NoStop st2 ∧
      st2.array = jsSwap st.array i j ∧ st2.sortedMarks = st.sortedMarks :=
  ⟨_, rfl, h, rfl, rfl⟩

theorem genWrite_noStop (i : Nat) (v : Int) {st : St} (h : NoStop st) :
    ∃ (st2 : St), genWrite i v st = (Except.ok (), st2) ∧ NoStop st2 ∧
      st2.array = st.array.set i v ∧ st2.sortedMarks = st.sortedMarks :=
  ⟨_, rfl, h, rfl, rfl⟩

theorem highlightCb_noStopE (idxs : List Nat) (tag : String) {st : St}
    (h : NoStop st) :
    ∃ (st2 : St), highlightCb idxs tag st = (Except.ok (), st2) ∧ NoStop st2 ∧
      st2.array = st.array ∧ st2.sortedMarks = st.sortedMarks := by
  refine ⟨_, highlightCb_noStop idxs tag h, h, rfl, rfl⟩

theorem bubbleInner_spec (rem : Nat) : ∀ (j : Nat) (swapped : Bool) (st : St),
    NoStop st → j + rem + 1 ≤ st.array.length →
    ∃ (b : Bool) (st2 : St), bubbleInner j rem swapped st = (Except.ok b, st2) ∧
      NoStop st2 ∧ st2.array = st.array ∧ st2.sortedMarks = st.sortedMarks := by
  induction rem with
  | zero =>
      intro j swapped st h _
      exact ⟨swapped, st, rfl, h, rfl, rfl⟩
  | succ rem ih =>
      intro j swapped st h hlen
      rw [bubbleInner, EM_bind_ok (shouldStopQ_noStop h)]
      try dsimp only
      rw [if_neg (by simp)]
      obtain ⟨b1, stA, hc, hA, hAarr, hAmarks⟩ := compareCb_noStop j (j + 1) h
      rw [EM_bind_ok hc]
      try dsimp only
      obtain ⟨stB, hy, hB, hBarr, hBmarks, _, _, _⟩ :=
        yieldD_noStop (StepD.compareS j (j + 1)) hA
      rw [EM_bind_ok hy]
      try dsimp only
      have hBst : stB.array = st.array := by rw [hBarr, hAarr]
      have hBmst : stB.sortedMarks = st.sortedMarks := by rw [hBmarks, hAmarks]
      cases b1 with
      | false =>
          rw [if_neg (by simp)]
          obtain ⟨b2, st2, hrec, h2, h2arr, h2marks⟩ :=
            ih (j + 1) swapped stB hB (by rw [hBst]; omega)
          exact ⟨b2, st2, hrec, h2, by rw [h2arr, hBst], by rw [h2marks, hBmst]⟩
      | true =>
          rw [if_pos rfl]
          obtain ⟨stC, hsw, hC, hCarr, hCmarks⟩ := swapCb_noStop j (j + 1) hB
          rw [EM_bind_ok hsw]
          try dsimp only
          obtain ⟨stD, hgs, hD, hDarr, hDmarks⟩ := genSwap_noStop j (j + 1) hC
          rw [EM_bind_ok hgs]
          try dsimp only
          obtain ⟨stE, hy2, hE, hEarr, hEmarks, _, _, _⟩ :=
            yieldD_noStop (StepD.swapS j (j + 1)) hD
          rw [EM_bind_ok hy2]
          try dsimp only
          have hEst : stE.array = st.array := by
            rw [hEarr, hDarr, hCarr, hBst]
            exact jsSwap_jsSwap st.array j (j + 1) (by omega) (by omega)
          have hEmst : stE.sortedMarks = st.sortedMarks := by
            rw [hEmarks, hDmarks, hCmarks, hBmst]
          obtain ⟨b2, st2, hrec, h2, h2arr, h2marks⟩ :=
            ih (j + 1) true stE hE (by rw [hEst]; omega)
          exact ⟨b2, st2, hrec, h2, by rw [h2arr, hEst], by rw [h2marks, hEmst]⟩

theorem genRet_apply (st : St) : (genRet : EM Unit) st = (Except.error GErr.ret, st) := rfl

theorem genBody_ok {m : EM Unit} {st st1 : St}
    (h : m st = (Except.ok (), st1)) : genBody m st = (Except.ok (), st1) := by
  unfold genBody
  rw [h]

theorem genBody_ret {m : EM Unit} {st st1 : St}
    (h : m st = (Except.error GErr.ret, st1)) : genBody m st = (Except.ok (), st1) := by
  unfold genBody
  rw [h]

theorem markRange_spec (rem : Nat) : ∀ (k : Nat) (st : St), NoStop st →
    ∃ (st2 : St), markRange k rem st = (Except.ok (), st2) ∧ NoStop st2 ∧
      st2.array = st.array ∧
      st2.comparisons = st.comparisons ∧ st2.swaps = st.swaps ∧
      (∀ x ∈ st.sortedMarks, x ∈ st2.sortedMarks) ∧
      (∀ d, d < rem → k + d ∈ st2.sortedMarks) := by
  induction rem with
  | zero =>
      intro k st h
      exact ⟨st, rfl, h, rfl, rfl, rfl, fun x hx => hx, fun d hd => absurd hd (by omega)⟩
  | succ rem ih =>
      intro k st h
      rw [markRange]
      obtain ⟨stA, hm, hA, hAarr, hAmarks, hAc, hAs⟩ := markSortedCb_noStop [k] h
      rw [EM_bind_ok hm]
      obtain ⟨st2, hrec, h2, h2arr, h2c, h2s, h2mono, h2cov⟩ := ih (k + 1) stA hA
      refine ⟨st2, hrec, h2, by rw [h2arr, hAarr], by rw [h2c, hAc],
        by rw [h2s, hAs], ?_, ?_⟩
      · intro x hx
        apply h2mono
        rw [hAmarks]
        exact List.mem_append_left _ hx
      · intro d hd
        cases d with
        | zero =>
            apply h2mono
            rw [hAmarks]
            simp
        | succ d =>
            have hmem := h2cov d (by omega)
            have heq : k + (d + 1) = k + 1 + d := by omega
            rw [heq]
            exact hmem

theorem bubbleOuter_spec (rem : Nat) : ∀ (n i : Nat) (st : St), NoStop st →
    st.array.length = n → i + rem + 1 = n →
    ∃ (st2 : St), bubbleOuter n i rem st = (Except.ok (), st2) ∧ NoStop st2 ∧
      st2.array = st.array ∧
      (∀ x ∈ st.sortedMarks, x ∈ st2.sortedMarks) ∧
      (∀ k, 1 ≤ k → k + i < n → k ∈ st2.sortedMarks) := by
  induction rem with
  | zero =>
      intro n i st h hlen hin
      exact ⟨st, rfl, h, rfl, fun x hx => hx, fun k hk1 hk2 => absurd hk2 (by omega)⟩
  | succ rem ih =>
      intro n i st h hlen hin
      rw [bubbleOuter]
      obtain ⟨b, stA, hrun, hA, hAarr, hAmarks⟩ :=
        bubbleInner_spec (n - i - 1) 0 false st h (by omega)
      rw [EM_bind_ok hrun]
      try dsimp only
      obtain ⟨stB, hm, hB, hBarr, hBmarks, _, _⟩ := markSortedCb_noStop [n - i - 1] hA
      rw [EM_bind_ok hm]
      try dsimp only
      have hBst : stB.array = st.array := by rw [hBarr, hAarr]
      have hBmem : n - i - 1 ∈ stB.sortedMarks := by
        rw [hBmarks]
        simp
      have hBmono : ∀ x ∈ st.sortedMarks, x ∈ stB.sortedMarks := by
        intro x hx
        rw [hBmarks]
        exact List.mem_append_left _ (hAmarks ▸ hx)
      cases b with
      | true =>
          rw [if_pos rfl]
          obtain ⟨st2, hrec, h2, h2arr, h2mono, h2cov⟩ :=
            ih n (i + 1) stB hB (by rw [hBst]; exact hlen) (by omega)
          refine ⟨st2, hrec, h2, by rw [h2arr, hBst], ?_, ?_⟩
          · intro x hx
            exact h2mono _ (hBmono _ hx)
          · intro k hk1 hk2
            by_cases hk3 : k + i + 1 < n
            · exact h2cov k hk1 (by omega)
            · have hkeq : k = n - i - 1 := by omega
              rw [hkeq]
              exact h2mono _ hBmem
      | false =>
          rw [if_neg (by simp)]
          obtain ⟨st2, hrec, h2, h2arr, _, _, h2mono, h2cov⟩ := markRange_spec (n - i - 1) 0 stB hB
          refine ⟨st2, hrec, h2, by rw [h2arr, hBst], ?_, ?_⟩
          · intro x hx
            exact h2mono _ (hBmono _ hx)
          · intro k hk1 hk2
            by_cases hk3 : k < n - i - 1
            · have := h2cov k hk3
              simpa using this
            · have hkeq : k = n - i - 1 := by omega
              rw [hkeq]
              exact h2mono _ hBmem

theorem bubbleM_spec (st : St) (h : NoStop st) :
    ∃ (st2 : St), bubbleM st = (Except.ok (), st2) ∧ NoStop st2 ∧
      st2.array = st.array ∧
      (∀ k, k < st.array.length → k ∈ st2.sortedMarks) ∧
      st2.steps.getLast? = some StepD.completeS := by
  unfold bubbleM
  have houter : ∃ (stA : St), bubbleOuter st.array.length 0 (st.array.length - 1) st
        = (Except.ok (), stA) ∧ NoStop stA ∧ stA.array = st.array ∧
        (∀ k, 1 ≤ k → k < st.array.length → k ∈ stA.sortedMarks) := by
    cases hn : st.array.length with
    | zero =>
        exact ⟨st, rfl, h, rfl, fun k hk1 hk2 => absurd hk2 (by omega)⟩
    | succ m =>
        obtain ⟨stA, hrun, hA, hAarr, _, hAcov⟩ :=
          bubbleOuter_spec (st.array.length - 1) st.array.length 0 st h rfl (by omega)
        rw [hn] at hrun
        refine ⟨stA, hrun, hA, hAarr, fun k hk1 hk2 => ?_⟩
        exact hAcov k hk1 (by omega)
  obtain ⟨stA, hrun, hA, hAarr, hAcov⟩ := houter
  obtain ⟨stB, hm, hB, hBarr, hBmarks, _, _⟩ := markSortedCb_noStop [0] hA
  obtain ⟨stC, hy, hC, hCarr, hCmarks, _, _, hCsteps⟩ := yieldD_noStop StepD.completeS hB
  refine ⟨stC, genBody_ok ?_, hC, ?_, ?_, ?_⟩
  · rw [EM_bind_ok (readArr_apply st)]
    try dsimp only
    rw [EM_bind_ok hrun]
    try dsimp only
    rw [EM_bind_ok hm]
    try dsimp only
    exact hy
  · rw [hCarr, hBarr, hAarr]
  · intro k hk
    rw [hCmarks, hBmarks]
    cases Nat.eq_zero_or_pos k with
    | inl hk0 =>
        rw [hk0]
        simp
    | inr hk1 =>
        exact List.mem_append_left _ (hAcov k hk1 hk)
  · rw [hCsteps]
    exact List.getLast?_concat _

theorem swapPairYield_noStop (i j : Nat) (d : StepD) {st : St} (h : NoStop st)
    (hi : i < st.array.length) (hj : j < st.array.length) :
    ∃ (st2 : St), (do swapCb i j; genSwap i j; yieldD d : EM Unit) st
        = (Except.ok (), st2) ∧
      NoStop st2 ∧ st2.array = st.array ∧ st2.sortedMarks = st.sortedMarks := by
  obtain ⟨stC, hsw, hC, hCarr, hCmarks⟩ := swapCb_noStop i j h
  obtain ⟨stD, hgs, hD, hDarr, hDmarks⟩ := genSwap_noStop i j hC
  obtain ⟨stE, hy, hE, hEarr, hEmarks, _, _, _⟩ := yieldD_noStop d hD
  refine ⟨stE, ?_, hE, ?_, ?_⟩
  · rw [EM_bind_ok hsw]
    try dsimp only
    rw [EM_bind_ok hgs]
    try dsimp only
    exact hy
  · rw [hEarr, hDarr, hCarr]
    exact jsSwap_jsSwap _ _ _ hi hj
  · rw [hEmarks, hDmarks, hCmarks]

theorem selInner_spec (rem : Nat) : ∀ (j minIdx : Nat) (st : St), NoStop st →
    ∃ (r : Nat) (st2 : St), selInner j rem minIdx st = (Except.ok r, st2) ∧
      NoStop st2 ∧ st2.array = st.array ∧
      (r = minIdx ∨ (j ≤ r ∧ r < j + rem)) := by
  induction rem with
  | zero =>
      intro j minIdx st h
      exact ⟨minIdx, st, rfl, h, rfl, Or.inl rfl⟩
  | succ rem ih =>
      intro j minIdx st h
      rw [selInner, EM_bind_ok (shouldStopQ_noStop h)]
      try dsimp only
      rw [if_neg (by simp)]
      obtain ⟨b1, stA, hc, hA, hAarr, _⟩ := compareCb_noStop minIdx j h
      rw [EM_bind_ok hc]
      try dsimp only
      obtain ⟨stB, hy, hB, hBarr, _, _, _, _⟩ :=
        yieldD_noStop (StepD.compareS minIdx j) hA
      rw [EM_bind_ok hy]
      try dsimp only
      have hBst : stB.array = st.array := by rw [hBarr, hAarr]
      cases b1 with
      | true =>
          rw [if_pos rfl]
          obtain ⟨stC, hh1, hC, hCarr, _⟩ := highlightCb_noStopE [minIdx] "default" hB
          rw [EM_bind_ok hh1]
          try dsimp only
          obtain ⟨stD, hh2, hD, hDarr, _⟩ := highlightCb_noStopE [j] "min" hC
          rw [EM_bind_ok hh2]
          try dsimp only
          obtain ⟨r, st2, hrec, h2, h2arr, hr⟩ := ih (j + 1) j stD hD
          refine ⟨r, st2, hrec, h2, by rw [h2arr, hDarr, hCarr, hBst], Or.inr ?_⟩
          rcases hr with hr | hr
          · omega
          · omega
      | false =>
          rw [if_neg (by simp)]
          obtain ⟨r, st2, hrec, h2, h2arr, hr⟩ := ih (j + 1) minIdx stB hB
          refine ⟨r, st2, hrec, h2, by rw [h2arr, hBst], ?_⟩
          rcases hr with hr | hr
          · exact Or.inl hr
          · exact Or.inr (by omega)

theorem selOuter_spec (rem : Nat) : ∀ (n i : Nat) (st : St), NoStop st →
    st.array.length = n → i + rem + 1 = n →
    ∃ (st2 : St), selOuter n i rem st = (Except.ok (), st2) ∧ NoStop st2 ∧
      st2.array = st.array := by
  induction rem with
  | zero =>
      intro n i st h hlen hin
      exact ⟨st, rfl, h, rfl⟩
  | succ rem ih =>
      intro n i st h hlen hin
      rw [selOuter, EM_bind_ok (shouldStopQ_noStop h)]
      try dsimp only
      rw [if_neg (by simp)]
      obtain ⟨stA, hh1, hA, hAarr, _⟩ := highlightCb_noStopE [i] "min" h
      rw [EM_bind_ok hh1]
      try dsimp only
      obtain ⟨r, stB, hsel, hB, hBarr, hr⟩ := selInner_spec (n - (i + 1)) (i + 1) i stA hA
      rw [EM_bind_ok hsel]
      try dsimp only
      have hBst : stB.array = st.array := by rw [hBarr, hAarr]
      have hrn : r < n := by
        rcases hr with hr | hr
        · omega
        · omega
      by_cases hri : r ≠ i
      · rw [if_pos hri]
        obtain ⟨stC, hblock, hC, hCarr, _⟩ :=
          swapPairYield_noStop i r (StepD.swapS i r) hB
            (by rw [hBst, hlen]; omega) (by rw [hBst, hlen]; omega)
        rw [EM_bind_ok hblock]
        try dsimp only
        obtain ⟨stD, hm, hD, hDarr, _, _, _⟩ := markSortedCb_noStop [i] hC
        rw [EM_bind_ok hm]
        try dsimp only
        obtain ⟨st2, hrec, h2, h2arr⟩ :=
          ih n (i + 1) stD hD (by rw [hDarr, hCarr, hBst]; exact hlen) (by omega)
        exact ⟨st2, hrec, h2, by rw [h2arr, hDarr, hCarr, hBst]⟩
      · rw [if_neg hri]
        rw [EM_bind_ok (EM.pure_apply () stB)]
        try dsimp only
        obtain ⟨stD, hm, hD, hDarr, _, _, _⟩ := markSortedCb_noStop [i] hB
        rw [EM_bind_ok hm]
        try dsimp only
        obtain ⟨st2, hrec, h2, h2arr⟩ :=
          ih n (i + 1) stD hD (by rw [hDarr, hBst]; exact hlen) (by omega)
        exact ⟨st2, hrec, h2, by rw [h2arr, hDarr, hBst]⟩

theorem selectionM_spec (st : St) (h : NoStop st) :
    ∃ (st2 : St), selectionM st = (Except.ok (), st2) ∧ NoStop st2 ∧
      st2.array = st.array := by
  unfold selectionM
  have houter : ∃ (stA : St), selOuter st.array.length 0 (st.array.length - 1) st
        = (Except.ok (), stA) ∧ NoStop stA ∧ stA.array = st.array := by
    cases hn : st.array.length with
    | zero => exact ⟨st, rfl, h, rfl⟩
    | succ m =>
        obtain ⟨stA, hrun, hA, hAarr⟩ :=
          selOuter_spec (st.array.length - 1) st.array.length 0 st h rfl (by omega)
        rw [hn] at hrun
        exact ⟨stA, hrun, hA, hAarr⟩
  obtain ⟨stA, hrun, hA, hAarr⟩ := houter
  obtain ⟨stB, hm, hB, hBarr, _, _, _⟩ := markSortedCb_noStop [st.array.length - 1] hA
  obtain ⟨stC, hy, hC, hCarr, _, _, _, _⟩ := yieldD_noStop StepD.completeS hB
  refine ⟨stC, genBody_ok ?_, hC, ?_⟩
  · rw [EM_bind_ok (readArr_apply st)]
    try dsimp only
    rw [EM_bind_ok hrun]
    try dsimp only
    rw [EM_bind_ok hm]
    try dsimp only
    exact hy
  · rw [hCarr, hBarr, hAarr]

theorem quickMaybeSwap_spec (i : Int) (j : Nat) (v pivot : Int) {st : St}
    (h : NoStop st) (hi : -1 ≤ i) (hij : i < (j : Int))
    (hj : j < st.array.length) :
    ∃ (r : Int) (st2 : St), quickMaybeSwap i j v pivot st = (Except.ok r, st2) ∧
      NoStop st2 ∧ st2.array = st.array ∧ (r = i ∨ r = i + 1) := by
  unfold quickMaybeSwap
  by_cases hv : v < pivot
  · rw [if_pos hv]
    by_cases hne : i + 1 ≠ (j : Int)
    · rw [if_pos hne]
      obtain ⟨stC, hblock, hC, hCarr, _⟩ :=
        swapPairYield_noStop (i + 1).toNat j (StepD.swapS (i + 1).toNat j) h
          (by omega) hj
      rw [EM_bind_ok hblock]
      try dsimp only
      exact ⟨i + 1, stC, rfl, hC, hCarr, Or.inr rfl⟩
    · rw [if_neg hne]
      rw [EM_bind_ok (EM.pure_apply () st)]
      try dsimp only
      exact ⟨i + 1, st, rfl, h, rfl, Or.inr rfl⟩
  · rw [if_neg hv]
    exact ⟨i, st, rfl, h, rfl, Or.inl rfl⟩

theorem quickPartitionLoop_spec (high : Nat) (pivot : Int) (rem : Nat) :
    ∀ (i : Int) (j : Nat) (st : St), NoStop st →
    -1 ≤ i → i < (j : Int) → j + rem = high → high < st.array.length →
    ∃ (r : Int) (st2 : St),
      quickPartitionLoop high pivot i j rem st = (Except.ok r, st2) ∧
      NoStop st2 ∧ st2.array = st.array ∧ -1 ≤ r ∧ r < (high : Int) := by
  induction rem with
  | zero =>
      intro i j st h hi hij hjr hhigh
      refine ⟨i, st, rfl, h, rfl, hi, ?_⟩
      omega
  | succ rem ih =>
      intro i j st h hi hij hjr hhigh
      rw [quickPartitionLoop, EM_bind_ok (shouldStopQ_noStop h)]
      try dsimp only
      rw [if_neg (by simp)]
      obtain ⟨stA, hh1, hA, hAarr, _⟩ := highlightCb_noStopE [j] "comparing" h
      rw [EM_bind_ok hh1]
      try dsimp only
      obtain ⟨stB, hy, hB, hBarr, _, _, _, _⟩ :=
        yieldD_noStop (StepD.compareS j high) hA
      rw [EM_bind_ok hy]
      try dsimp only
      rw [EM_bind_ok (readArr_apply stB)]
      try dsimp only
      have hBst : stB.array = st.array := by rw [hBarr, hAarr]
      obtain ⟨r1, stC, hms, hC, hCarr, hr1⟩ :=
        quickMaybeSwap_spec i j (jsGet stB.array j) pivot hB hi hij
          (by rw [hBst]; omega)
      rw [EM_bind_ok hms]
      try dsimp only
      obtain ⟨stD, hh2, hD, hDarr, _⟩ := highlightCb_noStopE [j] "default" hC
      rw [EM_bind_ok hh2]
      try dsimp only
      obtain ⟨r, st2, hrec, h2, h2arr, hrge, hrlt⟩ :=
        ih r1 (j + 1) stD hD (by omega) (by push_cast; omega) (by omega)
          (by rw [hDarr, hCarr, hBst]; omega)
      refine ⟨r, st2, hrec, h2, ?_, hrge, hrlt⟩
      rw [h2arr, hDarr, hCarr, hBst]

theorem quickHelper_spec (fuel : Nat) : ∀ (low high : Nat) (st : St), NoStop st →
    (high < st.array.length ∨ high ≤ low) →
    ∃ (st2 : St), quickHelper fuel low high st = (Except.ok (), st2) ∧
      NoStop st2 ∧ st2.array = st.array := by
  induction fuel with
  | zero =>
      intro low high st h _
      exact ⟨st, rfl, h, rfl⟩
  | succ fuel ih =>
      intro low high st h hbound
      rw [quickHelper]
      by_cases hlh : low ≥ high
      · refine ⟨st, genBody_ret ?_, h, rfl⟩
        rw [EM_bind_ok (shouldStopQ_noStop h)]
        try dsimp only
        rw [if_pos (Or.inl hlh)]
        exact genRet_apply st
      · have hhlen : high < st.array.length := by
          rcases hbound with hb | hb
          · exact hb
          · omega
        obtain ⟨stA, hh1, hA, hAarr, _⟩ := highlightCb_noStopE [high] "pivot" h
        obtain ⟨stB, hy, hB, hBarr, _, _, _, _⟩ := yieldD_noStop (StepD.pivotS high) hA
        have hBst : stB.array = st.array := by rw [hBarr, hAarr]
        obtain ⟨r, stE, hpart, hE, hEarr, hrge, hrlt⟩ :=
          quickPartitionLoop_spec high (jsGet st.array high) (high - low)
            ((low : Int) - 1) low stB hB (by omega) (by omega)
            (by omega) (by rw [hBst]; omega)
        have hEst : stE.array = st.array := by rw [hEarr, hBst]
        have hblock : ∃ (stG : St),
            ((if (r + 1).toNat ≠ high then do
                swapCb (r + 1).toNat high
                genSwap (r + 1).toNat high
                yieldD (StepD.swapS (r + 1).toNat high)
              else pure ()) : EM Unit) stE = (Except.ok (), stG) ∧
            NoStop stG ∧ stG.array = stE.array := by
          by_cases hne : (r + 1).toNat ≠ high
          · rw [if_pos hne]
            obtain ⟨stG, hb2, hG, hGarr, _⟩ :=
              swapPairYield_noStop (r + 1).toNat high
                (StepD.swapS (r + 1).toNat high) hE
                (by rw [hEst]; omega) (by rw [hEst]; omega)
            exact ⟨stG, hb2, hG, hGarr⟩
          · rw [if_neg hne]
            exact ⟨stE, rfl, hE, rfl⟩
        obtain ⟨stG, hswap, hG, hGarr⟩ := hblock
        obtain ⟨stH, hh2, hH, hHarr, _⟩ := highlightCb_noStopE [high] "default" hG
        obtain ⟨stI, hm, hI, hIarr, _, _, _⟩ := markSortedCb_noStop [(r + 1).toNat] hH
        have hIst : stI.array = st.array := by rw [hIarr, hHarr, hGarr, hEst]
        obtain ⟨stJ, hrec1, hJ, hJarr⟩ := ih low ((r + 1).toNat - 1) stI hI (by
          left
          rw [hIst]
          omega)
        obtain ⟨st2, hrec2, h2, h2arr⟩ := ih ((r + 1).toNat + 1) high stJ hJ (by
          left
          rw [hJarr, hIst]
          omega)
        refine ⟨st2, genBody_ok ?_, h2, by rw [h2arr, hJarr, hIst]⟩
        rw [EM_bind_ok (shouldStopQ_noStop h)]
        try dsimp only
        rw [if_neg (by simp [hlh])]
        rw [EM_bind_ok (readArr_apply st)]
        try dsimp only
        rw [EM_bind_ok hh1]
        try dsimp only
        rw [EM_bind_ok hy]
        try dsimp only
        rw [EM_bind_ok hpart]
        try dsimp only
        rw [EM_bind_ok hswap]
        try dsimp only
        rw [EM_bind_ok hh2]
        try dsimp only
        rw [EM_bind_ok hm]
        try dsimp only
        rw [EM_bind_ok hrec1]
        try dsimp only
        exact hrec2

theorem quickM_spec (st : St) (h : NoStop st) :
    ∃ (st2 : St), quickM st = (Except.ok (), st2) ∧ NoStop st2 ∧
      st2.array = st.array := by
  unfold quickM
  obtain ⟨stA, hrun, hA, hAarr⟩ :=
    quickHelper_spec (st.array.length + 1) 0 (st.array.length - 1) st h (by omega)
  obtain ⟨stB, hmr, hB, hBarr, _, _, _, _⟩ := markRange_spec st.array.length 0 stA hA
  obtain ⟨stC, hy, hC, hCarr, _, _, _, _⟩ := yieldD_noStop StepD.completeS hB
  refine ⟨stC, genBody_ok ?_, hC, by rw [hCarr, hBarr, hAarr]⟩
  rw [EM_bind_ok (readArr_apply st)]
  try dsimp only
  rw [EM_bind_ok hrun]
  try dsimp only
  rw [EM_bind_ok (shouldStopQ_noStop hA)]
  try dsimp only
  rw [if_neg (by simp)]
  rw [EM_bind_ok hmr]
  try dsimp only
  exact hy

theorem heapifyCheckChild_spec (largest child heapSize : Nat) {st : St}
    (h : NoStop st) :
    ∃ (r : Nat) (st2 : St), heapifyCheckChild largest child heapSize st
        = (Except.ok r, st2) ∧
      NoStop st2 ∧ st2.array = st.array ∧
      (r = largest ∨ (r = child ∧ child < heapSize)) := by
  unfold heapifyCheckChild
  by_cases hch : child < heapSize
  · rw [if_pos hch]
    rw [EM_bind_ok (shouldStopQ_noStop h)]
    try dsimp only
    rw [if_neg (by simp)]
    obtain ⟨b1, stA, hc, hA, hAarr, _⟩ := compareCb_noStop largest child h
    rw [EM_bind_ok hc]
    try dsimp only
    obtain ⟨stB, hy, hB, hBarr, _, _, _, _⟩ :=
      yieldD_noStop (StepD.compareS largest child) hA
    rw [EM_bind_ok hy]
    try dsimp only
    rw [EM_bind_ok (readArr_apply stB)]
    try dsimp only
    have hBst : stB.array = st.array := by rw [hBarr, hAarr]
    by_cases hgt : jsGet stB.array child > jsGet stB.array largest
    · rw [if_pos hgt]
      exact ⟨child, stB, rfl, hB, hBst, Or.inr ⟨rfl, hch⟩⟩
    · rw [if_neg hgt]
      exact ⟨largest, stB, rfl, hB, hBst, Or.inl rfl⟩
  · rw [if_neg hch]
    exact ⟨largest, st, rfl, h, rfl, Or.inl rfl⟩

theorem heapify_spec (fuel : Nat) : ∀ (heapSize rootIdx : Nat) (st : St),
    NoStop st → rootIdx < heapSize → heapSize ≤ st.array.length →
    ∃ (st2 : St), heapify fuel heapSize rootIdx st = (Except.ok (), st2) ∧
      NoStop st2 ∧ st2.array = st.array := by
  induction fuel with
  | zero =>
      intro heapSize rootIdx st h _ _
      exact ⟨st, rfl, h, rfl⟩
  | succ fuel ih =>
      intro heapSize rootIdx st h hroot hsize
      rw [heapify]
      obtain ⟨l1, stA, hc1, hA, hAarr, hl1⟩ :=
        heapifyCheckChild_spec rootIdx (2 * rootIdx + 1) heapSize h
      obtain ⟨l2, stB, hc2, hB, hBarr, hl2⟩ :=
        heapifyCheckChild_spec l1 (2 * rootIdx + 2) heapSize hA
      have hBst : stB.array = st.array := by rw [hBarr, hAarr]
      have hl1lt : l1 < heapSize := by
        rcases hl1 with hl | ⟨hl, hlt⟩
        · omega
        · omega
      have hl2lt : l2 < heapSize := by
        rcases hl2 with hl | ⟨hl, hlt⟩
        · omega
        · omega
      have hbody : ∃ (st2 : St),
          ((if l2 ≠ rootIdx then do
              swapCb rootIdx l2
              genSwap rootIdx l2
              yieldD (StepD.swapS rootIdx l2)
              heapify fuel heapSize l2
            else pure ()) : EM Unit) stB = (Except.ok (), st2) ∧
          NoStop st2 ∧ st2.array = stB.array := by
        by_cases hne : l2 ≠ rootIdx
        · rw [if_pos hne]
          obtain ⟨stC, hsw, hC, hCarr, _⟩ := swapCb_noStop rootIdx l2 hB
          obtain ⟨stD, hgs, hD, hDarr, _⟩ := genSwap_noStop rootIdx l2 hC
          obtain ⟨stE, hy, hE, hEarr, _, _, _, _⟩ :=
            yieldD_noStop (StepD.swapS rootIdx l2) hD
          have hEst : stE.array = stB.array := by
            rw [hEarr, hDarr, hCarr]
            exact jsSwap_jsSwap _ _ _ (by rw [hBst]; omega) (by rw [hBst]; omega)
          obtain ⟨st2, hrec, h2, h2arr⟩ := ih heapSize l2 stE hE hl2lt (by
            rw [hEst, hBst]
            exact hsize)
          refine ⟨st2, ?_, h2, by rw [h2arr, hEst]⟩
          rw [EM_bind_ok hsw]
          try dsimp only
          rw [EM_bind_ok hgs]
          try dsimp only
          rw [EM_bind_ok hy]
          try dsimp only
          exact hrec
        · rw [if_neg hne]
          exact ⟨stB, rfl, hB, rfl⟩
      obtain ⟨st2, hbodyeq, h2, h2arr⟩ := hbody
      refine ⟨st2, genBody_ok ?_, h2, by rw [h2arr, hBst]⟩
      rw [EM_bind_ok hc1]
      try dsimp only
      rw [EM_bind_ok hc2]
      try dsimp only
      exact hbodyeq

theorem heapBuildLoop_spec (rem : Nat) : ∀ (n : Nat) (st : St), NoStop st →
    rem ≤ n / 2 → st.array.length = n →
    ∃ (st2 : St), heapBuildLoop n rem st = (Except.ok (), st2) ∧ NoStop st2 ∧
      st2.array = st.array := by
  induction rem with
  | zero =>
      intro n st h _ _
      exact ⟨st, rfl, h, rfl⟩
  | succ rem ih =>
      intro n st h hrem hlen
      rw [heapBuildLoop, EM_bind_ok (shouldStopQ_noStop h)]
      try dsimp only
      rw [if_neg (by simp)]
      obtain ⟨stA, hhf, hA, hAarr⟩ :=
        heapify_spec (n + 1) n rem st h (by omega) (by omega)
      rw [EM_bind_ok hhf]
      try dsimp only
      obtain ⟨st2, hrec, h2, h2arr⟩ := ih n stA hA (by omega) (by rw [hAarr]; exact hlen)
      exact ⟨st2, hrec, h2, by rw [h2arr, hAarr]⟩

theorem heapExtractLoop_spec (rem : Nat) : ∀ (n : Nat) (st : St), NoStop st →
    rem ≤ n - 1 → st.array.length = n →
    ∃ (st2 : St), heapExtractLoop n rem st = (Except.ok (), st2) ∧ NoStop st2 ∧
      st2.array = st.array := by
  induction rem with
  | zero =>
      intro n st h _ _
      exact ⟨st, rfl, h, rfl⟩
  | succ rem ih =>
      intro n st h hrem hlen
      rw [heapExtractLoop, EM_bind_ok (shouldStopQ_noStop h)]
      try dsimp only
      rw [if_neg (by simp)]
      obtain ⟨stC, hsw, hC, hCarr, _⟩ := swapCb_noStop 0 (rem + 1) h
      rw [EM_bind_ok hsw]
      try dsimp only
      obtain ⟨stD, hgs, hD, hDarr, _⟩ := genSwap_noStop 0 (rem + 1) hC
      rw [EM_bind_ok hgs]
      try dsimp only
      obtain ⟨stE, hy, hE, hEarr, _, _, _, _⟩ :=
        yieldD_noStop (StepD.swapS 0 (rem + 1)) hD
      rw [EM_bind_ok hy]
      try dsimp only
      have hEst : stE.array = st.array := by
        rw [hEarr, hDarr, hCarr]
        exact jsSwap_jsSwap _ _ _ (by omega) (by omega)
      obtain ⟨stF, hm, hF, hFarr, _, _, _⟩ := markSortedCb_noStop [rem + 1] hE
      rw [EM_bind_ok hm]
      try dsimp only
      obtain ⟨stG, hhf, hG, hGarr⟩ :=
        heapify_spec (n + 1) (rem + 1) 0 stF hF (by omega) (by
          rw [hFarr, hEst, hlen]
          omega)
      rw [EM_bind_ok hhf]
      try dsimp only
      obtain ⟨st2, hrec, h2, h2arr⟩ := ih n stG hG (by omega) (by
        rw [hGarr, hFarr, hEst]
        exact hlen)
      exact ⟨st2, hrec, h2, by rw [h2arr, hGarr, hFarr, hEst]⟩

theorem heapM_spec (st : St) (h : NoStop st) :
    ∃ (st2 : St), heapM st = (Except.ok (), st2) ∧ NoStop st2 ∧
      st2.array = st.array := by
  unfold heapM
  obtain ⟨stA, hbl, hA, hAarr⟩ :=
    heapBuildLoop_spec (st.array.length / 2) st.array.length st h (by omega) rfl
  obtain ⟨stB, hel, hB, hBarr⟩ :=
    heapExtractLoop_spec (st.array.length - 1) st.array.length stA hA (by omega)
      (by rw [hAarr])
  obtain ⟨stC, hm, hC, hCarr, _, _, _⟩ := markSortedCb_noStop [0] hB
  obtain ⟨stD, hy, hD, hDarr, _, _, _, _⟩ := yieldD_noStop StepD.completeS hC
  refine ⟨stD, genBody_ok ?_, hD, by rw [hDarr, hCarr, hBarr, hAarr]⟩
  rw [EM_bind_ok (readArr_apply st)]
  try dsimp only
  rw [EM_bind_ok hbl]
  try dsimp only
  rw [EM_bind_ok hel]
  try dsimp only
  rw [EM_bind_ok hm]
  try dsimp only
  exact hy

theorem freshSt_noStop (arr : List Int) (speed : Int) (mode : Mode) :
    NoStop (freshSt arr speed mode none) := ⟨rfl, rfl⟩

/-- C2: for every run of bubble-sort, selection-sort, quick-sort, or
heap-sort that completes without stop, the returned `finalArray` is
element-wise equal to the input array: the generator receives the engine's
state array itself, so the swap callback's in-place exchange and the
sequence's own destructuring exchange both hit the same object and every
logical swap is applied twice, cancelling out. -/
theorem swap_based_runs_return_input_array (arr : List Int) (speed : Int)
    (mode : Mode) :
    (executeModel "bubble-sort" bubbleM arr speed mode none).1.finalArray = arr ∧
    (executeModel "selection-sort" selectionM arr speed mode none).1.finalArray = arr ∧
    (executeModel "quick-sort" quickM arr speed mode none).1.finalArray = arr ∧
    (executeModel "heap-sort" heapM arr speed mode none).1.finalArray = arr := by
  refine ⟨?_, ?_, ?_, ?_⟩
  · obtain ⟨st2, heq, _, harr, _, _⟩ :=
      bubbleM_spec (freshSt arr speed mode none) (freshSt_noStop arr speed mode)
    have hb : (executeModel "bubble-sort" bubbleM arr speed mode none).1.finalArray
        = (bubbleM (freshSt arr speed mode none)).2.array := rfl
    rw [hb, heq]
    exact harr
  · obtain ⟨st2, heq, _, harr⟩ :=
      selectionM_spec (freshSt arr speed mode none) (freshSt_noStop arr speed mode)
    have hb : (executeModel "selection-sort" selectionM arr speed mode none).1.finalArray
        = (selectionM (freshSt arr speed mode none)).2.array := rfl
    rw [hb, heq]
    exact harr
  · obtain ⟨st2, heq, _, harr⟩ :=
      quickM_spec (freshSt arr speed mode none) (freshSt_noStop arr speed mode)
    have hb : (executeModel "quick-sort" quickM arr speed mode none).1.finalArray
        = (quickM (freshSt arr speed mode none)).2.array := rfl
    rw [hb, heq]
    exact harr
  · obtain ⟨st2, heq, _, harr⟩ :=
      heapM_spec (freshSt arr speed mode none) (freshSt_noStop arr speed mode)
    have hb : (executeModel "heap-sort" heapM arr speed mode none).1.finalArray
        = (heapM (freshSt arr speed mode none)).2.array := rfl
    rw [hb, heq]
    exact harr

/-- C9: for every bubble-sort run (no stop), every element is marked
sorted by the time the sequence emits its `complete` descriptor (which is
the last descriptor emitted), and whenever an outer pass's inner loop
completes with `swapped = false` the whole sort terminates early at that
point: the rest of the outer loop performs no further comparisons and no
further swaps, and every index of the remaining unsorted prefix is marked
sorted. -/
theorem bubble_early_termination_and_marks :
    (∀ (arr : List Int) (speed : Int) (mode : Mode),
        (∀ k, k < arr.length →
            k ∈ (executeModel "bubble-sort" bubbleM arr speed mode none).2.sortedMarks) ∧
        (executeModel "bubble-sort" bubbleM arr speed mode none).2.steps.getLast?
          = some StepD.completeS) ∧
    (∀ (n i rem : Nat) (st : St),
        (bubbleInner 0 (n - i - 1) false st).1 = Except.ok false →
        NoStop (bubbleInner 0 (n - i - 1) false st).2 →
        (bubbleOuter n i (rem + 1) st).2.comparisons
            = (bubbleInner 0 (n - i - 1) false st).2.comparisons ∧
        (bubbleOuter n i (rem + 1) st).2.swaps
            = (bubbleInner 0 (n - i - 1) false st).2.swaps ∧
        ∀ k, k < n - i → k ∈ (bubbleOuter n i (rem + 1) st).2.sortedMarks) := by
  constructor
  · intro arr speed mode
    obtain ⟨st2, heq, _, _, hcov, hlast⟩ :=
      bubbleM_spec (freshSt arr speed mode none) (freshSt_noStop arr speed mode)
    have hm : (executeModel "bubble-sort" bubbleM arr speed mode none).2.sortedMarks
        = (bubbleM (freshSt arr speed mode none)).2.sortedMarks := rfl
    have hs : (executeModel "bubble-sort" bubbleM arr speed mode none).2.steps
        = (bubbleM (freshSt arr speed mode none)).2.steps := rfl
    constructor
    · intro k hk
      rw [hm, heq]
      exact hcov k hk
    · rw [hs, heq]
      exact hlast
  · intro n i rem st h1 hns
    have hA : bubbleInner 0 (n - i - 1) false st
        = (Except.ok false, (bubbleInner 0 (n - i - 1) false st).2) := by
      rw [← h1]
    rw [bubbleOuter, EM_bind_ok hA]
    try dsimp only
    obtain ⟨stB, hm, hB, _, hBmarks, hBc, hBs⟩ := markSortedCb_noStop [n - i - 1] hns
    rw [EM_bind_ok hm]
    try dsimp only
    rw [if_neg (by simp)]
    obtain ⟨st2, hmr, _, _, h2c, h2s, h2mono, h2cov⟩ := markRange_spec (n - i - 1) 0 stB hB
    rw [hmr]
    refine ⟨by rw [h2c, hBc], by rw [h2s, hBs], ?_⟩
    intro k hk
    by_cases hk2 : k < n - i - 1
    · have := h2cov k hk2
      simpa using this
    · have hkeq : k = n - i - 1 := by omega
      rw [hkeq]
      apply h2mono
      rw [hBmarks]
      simp

/-- Witness for C9: on the already-sorted input `[1, 2]` the first pass
performs no swap, and the whole sort stops there. -/
theorem bubble_early_termination_and_marks_witness :
    (bubbleOuter 2 0 (0 + 1) (freshSt [1, 2] 5 Mode.continuous none)).2.comparisons
        = (bubbleInner 0 (2 - 0 - 1) false (freshSt [1, 2] 5 Mode.continuous none)).2.comparisons ∧
    ∀ k, k < 2 - 0 →
      k ∈ (bubbleOuter 2 0 (0 + 1) (freshSt [1, 2] 5 Mode.continuous none)).2.sortedMarks := by
  have hinst := bubble_early_termination_and_marks.2 2 0 0
    (freshSt [1, 2] 5 Mode.continuous none)
    (by simp [bubbleInner, freshSt, EM.bind_def, EM.bind, compareCb, swapCb,
      markSortedCb, yieldD, shouldStopQ, readArr, genSwap, pollStopSt, jsSwap,
      jsGet, throwM, genRet, pure])
    (by simp [NoStop, bubbleInner, freshSt, EM.bind_def, EM.bind, compareCb, swapCb,
      markSortedCb, yieldD, shouldStopQ, readArr, genSwap, pollStopSt, jsSwap,
      jsGet, throwM, genRet, pure])
  exact ⟨hinst.1, hinst.2.2⟩
